import Mathlib

/-!
Secure AI Gateway: inspection pipeline and audit-log aggregation

A shallow embedding of `main.go`.  A Go `string` is a sequence of bytes, so it is
modelled as `List Nat` (one `Nat` per byte); string literals of the source are
the UTF-8 encodings of their text (`utf8`).  The audit log file and the clock
are explicit inputs: the file system is a value of `FS`, and the formatted
clock reading `time.Now().Format("2006-01-02 15:04:05")` is an argument `now`.
-/

namespace Gateway

set_option maxRecDepth 100000

/-! ## Go strings -/

/-- UTF-8 encoding of one code point (the Go compiler stores string literals in UTF-8). -/
def utf8EncodeChar (c : Nat) : List Nat :=
  if c < 0x80 then [c]
  else if c < 0x800 then [0xC0 + c / 64, 0x80 + c % 64]
  else if c < 0x10000 then [0xE0 + c / 4096, 0x80 + (c / 64) % 64, 0x80 + c % 64]
  else [0xF0 + c / 262144, 0x80 + (c / 4096) % 64, 0x80 + (c / 64) % 64, 0x80 + c % 64]

/-- The bytes of a string literal. -/
def utf8 (s : String) : List Nat :=
  s.toList.foldr (fun c acc => utf8EncodeChar c.toNat ++ acc) []

/-- Whether `s` begins with `p` (`strings.HasPrefix`). -/
def startsWith : List Nat → List Nat → Bool
  | _, [] => true
  | [], _ :: _ => false
  | a :: s, b :: p => a == b && startsWith s p

/-- Search loop of `strings.Index`: the first offset, counted from `i`, at which `sub` occurs. -/
def indexFrom (sub : List Nat) : List Nat → Nat → Int
  | [], i => if startsWith [] sub then (i : Int) else -1
  | a :: t, i => if startsWith (a :: t) sub then (i : Int) else indexFrom sub t (i + 1)

/-- `strings.Index(s, sub)`: index of the first instance of `sub` in `s`, or `-1`. -/
def Index (s sub : List Nat) : Int := indexFrom sub s 0

/-- `strings.Contains(s, sub)`, which Go defines as `Index(s, sub) >= 0`. -/
def Contains (s sub : List Nat) : Bool := decide (Index s sub ≥ 0)

/-- Search loop of `strings.LastIndex`: the last offset, counted from `i`, at which `sub` occurs. -/
def lastIndexFrom (sub : List Nat) : List Nat → Nat → Int
  | [], i => if startsWith [] sub then (i : Int) else -1
  | a :: t, i =>
    let r := lastIndexFrom sub t (i + 1)
    if r ≠ -1 then r else if startsWith (a :: t) sub then (i : Int) else -1

/-- `strings.LastIndex(s, sub)`: index of the last instance of `sub` in `s`, or `-1`. -/
def LastIndex (s sub : List Nat) : Int := lastIndexFrom sub s 0

/-- `strings.Split(s, "\n")`: the pieces of `s` between line feeds (byte 10); one more piece
than there are line feeds, so the split of the empty string is one empty piece. -/
def Split : List Nat → List (List Nat)
  | [] => [[]]
  | a :: t =>
    if a = 10 then [] :: Split t
    else match Split t with
      | [] => [[a]]
      | l :: ls => (a :: l) :: ls

/-- `strings.Replace(s, old, "", 1)`: `s` with its first instance of `old` removed. -/
def Replace (old : List Nat) : List Nat → List Nat
  | [] => []
  | a :: t => if startsWith (a :: t) old then (a :: t).drop old.length else a :: Replace old t

/-- The slice expression `s[lo:hi]`; `none` stands for the run-time panic Go raises when the
bounds are not `0 ≤ lo ≤ hi ≤ len(s)`. -/
def slice (s : List Nat) (lo hi : Int) : Option (List Nat) :=
  if 0 ≤ lo ∧ lo ≤ hi ∧ hi ≤ (s.length : Int) then some ((s.take hi.toNat).drop lo.toNat) else none

/-! ## Regular expressions (package `regexp`)

The four patterns of `handleChat` use literals, byte classes, repetition of a
class and alternation; all their classes are ASCII, so matching runes and
matching bytes agree. -/

/-- A byte class as a list of inclusive ranges. -/
abbrev ByteClass := List (Nat × Nat)

/-- Whether byte `b` belongs to the class. -/
def inClass (c : ByteClass) (b : Nat) : Bool := c.any (fun r => decide (r.1 ≤ b) && decide (b ≤ r.2))

/-- The inclusive range between two characters, `x-y` inside a class. -/
def chr (x y : Char) : Nat × Nat := (x.toNat, y.toNat)

/-- Abstract syntax of the patterns used by the gateway. -/
inductive Regex where
  /-- A literal byte sequence. -/
  | lit (bs : List Nat)
  /-- Exactly `n` bytes of a class, `[c]{n}`. -/
  | rep (c : ByteClass) (n : Nat)
  /-- At least `n` bytes of a class, `[c]{n,}`; `[c]+` is `many c 1`. -/
  | many (c : ByteClass) (n : Nat)
  /-- Concatenation. -/
  | seq (a b : Regex)
  /-- Alternation. -/
  | alt (a b : Regex)

/-- The strings a pattern matches in full. -/
def Regex.Lang : Regex → List Nat → Prop
  | .lit bs, u => u = bs
  | .rep c n, u => u.length = n ∧ ∀ b ∈ u, inClass c b = true
  | .many c n, u => n ≤ u.length ∧ ∀ b ∈ u, inClass c b = true
  | .seq a b, u => ∃ v w, u = v ++ w ∧ a.Lang v ∧ b.Lang w
  | .alt a b, u => a.Lang u ∨ b.Lang u

/-- Consume exactly `n` class bytes, then continue with `k`. -/
def repK (c : ByteClass) : Nat → List Nat → (List Nat → Bool) → Bool
  | 0, s, k => k s
  | _ + 1, [], _ => false
  | n + 1, a :: t, k => inClass c a && repK c n t k

/-- Consume any number of class bytes, then continue with `k`. -/
def starK (c : ByteClass) : List Nat → (List Nat → Bool) → Bool
  | [], k => k []
  | a :: t, k => k (a :: t) || (inClass c a && starK c t k)

/-- Match a pattern at the start of `s` and continue with `k` on what is left. -/
def matchK : Regex → List Nat → (List Nat → Bool) → Bool
  | .lit bs, s, k => startsWith s bs && k (s.drop bs.length)
  | .rep c n, s, k => repK c n s k
  | .many c n, s, k => repK c n s (fun t => starK c t k)
  | .seq a b, s, k => matchK a s (fun t => matchK b t k)
  | .alt a b, s, k => matchK a s k || matchK b s k

/-- `re.MatchString(s)`: whether `s` contains any match of the pattern. -/
def MatchString (re : Regex) : List Nat → Bool
  | [] => matchK re [] (fun _ => true)
  | a :: t => matchK re (a :: t) (fun _ => true) || MatchString re t

/-! ## The chat handler -/

/-- The request as `handleChat` sees it: the HTTP method and the outcome of decoding the JSON
body into a `ChatRequest` (`none` when `Decode` returns an error, else the `Message` field). -/
structure Request where
  Method : List Nat
  Body : Option (List Nat)

/-- What was written to the `http.ResponseWriter`: status code and body. -/
structure Response where
  status : Nat
  body : List Nat
deriving DecidableEq

/-- The file system as far as the gateway touches it: the content of `audit_log.txt` (`none`
when the file is absent, so that `os.ReadFile` fails) and whether `os.OpenFile` for append
succeeds. -/
structure FS where
  file : Option (List Nat)
  canOpen : Bool
deriving DecidableEq

/-- The line `writeAuditLog` formats with `"[%s] [%s] 内容: %s\n"`. -/
def auditLine (now status message : List Nat) : List Nat :=
  utf8 "[" ++ now ++ utf8 "] [" ++ status ++ utf8 "] 内容: " ++ message ++ utf8 "\n"

/-- `writeAuditLog`: open the log for append (creating it), give up silently when that fails,
else append one formatted line. -/
def writeAuditLog (fs : FS) (now status message : List Nat) : FS :=
  if fs.canOpen = false then fs
  else { fs with file := some (fs.file.getD [] ++ auditLine now status message) }

/-- `blockWithLog`: log a BLOCK line carrying the reason in parentheses, answer 403. -/
def blockWithLog (fs : FS) (now message reason : List Nat) : FS × Response :=
  (writeAuditLog fs now (utf8 "BLOCK") (message ++ utf8 " (" ++ reason ++ utf8 ")"),
   { status := 403, body := utf8 "【遮断】セキュリティ違反です。\n理由: " ++ reason })

/-- `askGeminiMock`. -/
def askGeminiMock (message : List Nat) : List Nat :=
  utf8 "【AI】(模擬応答)\n確認しました。「" ++ message ++
    utf8 "」ですね。\nこの内容はポリシーに準拠しています。"

/-- The forbidden terms of check A. -/
def forbiddenWords : List (List Nat) :=
  [utf8 "社外秘", utf8 "機密", utf8 "パスワード", utf8 "password", utf8 "SECRET", utf8 "年収"]

/-- The loop of check A: the first word, in list order, that the message contains. -/
def forbiddenLoop (message : List Nat) : List (List Nat) → Option (List Nat)
  | [] => none
  | word :: rest => if Contains message word then some word else forbiddenLoop message rest

/-- The pattern `[a-zA-Z0-9._%+-]+@[a-zA-Z0-9.-]+\.[a-zA-Z]{2,}`. -/
def emailPattern : Regex :=
  .seq (.many [chr 'a' 'z', chr 'A' 'Z', chr '0' '9', chr '.' '.', chr '_' '_', chr '%' '%',
          chr '+' '+', chr '-' '-'] 1)
    (.seq (.lit (utf8 "@"))
      (.seq (.many [chr 'a' 'z', chr 'A' 'Z', chr '0' '9', chr '.' '.', chr '-' '-'] 1)
        (.seq (.lit (utf8 ".")) (.many [chr 'a' 'z', chr 'A' 'Z'] 2))))

/-- The pattern `AIza[0-9A-Za-z-_]{35}`. -/
def googleKeyPattern : Regex :=
  .seq (.lit (utf8 "AIza"))
    (.rep [chr '0' '9', chr 'A' 'Z', chr 'a' 'z', chr '-' '-', chr '_' '_'] 35)

/-- The pattern `AKIA[0-9A-Z]{16}`. -/
def awsKeyPattern : Regex :=
  .seq (.lit (utf8 "AKIA")) (.rep [chr '0' '9', chr 'A' 'Z'] 16)

/-- The class `\s` of Go regular expressions: tab, line feed, form feed, carriage return, space. -/
def whitespace : ByteClass := [(9, 10), (12, 13), (32, 32)]

/-- The pattern `(func|class|import|package|def|public|private)\s+`. -/
def codePattern : Regex :=
  .seq (.alt (.lit (utf8 "func")) (.alt (.lit (utf8 "class")) (.alt (.lit (utf8 "import"))
          (.alt (.lit (utf8 "package")) (.alt (.lit (utf8 "def")) (.alt (.lit (utf8 "public"))
            (.lit (utf8 "private"))))))))
    (.many whitespace 1)

/-- `handleChat`: method check, body decoding, the four security checks in order, and the
ALLOW path. -/
def handleChat (fs : FS) (now : List Nat) (r : Request) : FS × Response :=
  if r.Method ≠ utf8 "POST" then (fs, { status := 405, body := utf8 "POST only\n" })
  else match r.Body with
    | none => (fs, { status := 400, body := utf8 "Bad Request\n" })
    | some message =>
      match forbiddenLoop message forbiddenWords with
      | some word => blockWithLog fs now message (utf8 "禁止用語: " ++ word)
      | none =>
        if MatchString emailPattern message then
          blockWithLog fs now message (utf8 "検知: メールアドレス流出")
        else if MatchString googleKeyPattern message || MatchString awsKeyPattern message then
          blockWithLog fs now message (utf8 "検知: APIキー流出")
        else if MatchString codePattern message then
          blockWithLog fs now message (utf8 "検知: ソースコード送信")
        else
          (writeAuditLog fs now (utf8 "ALLOW") message,
           { status := 200, body := askGeminiMock message })

/-! ## The admin dashboard -/

/-- A row of the dashboard table. -/
structure LogEntry where
  Time : List Nat
  Status : List Nat
  Message : List Nat
deriving DecidableEq

/-- The `map[string]int` of the ranking, as an association list with one pair per key. -/
abbrev Ranking := List (List Nat × Nat)

/-- The statement `keywordMap[key]++`. -/
def increment : Ranking → List Nat → Ranking
  | [], key => [(key, 1)]
  | (k, n) :: m, key => if k = key then (k, n + 1) :: m else (k, n) :: increment m key

/-- The expression `keywordMap[key]`: the count of a key, zero when absent. -/
def count : Ranking → List Nat → Nat
  | [], _ => 0
  | (k, n) :: m, key => if k = key then n else count m key

/-- The variables the loop of `handleAdmin` updates.  The two counters are Go `int`s; each counts
lines of the file read, so neither can reach `2^63` and they are modelled as `Nat`. -/
structure LoopState where
  logs : List LogEntry
  blockCount : Nat
  allowCount : Nat
  keywordMap : Ranking
deriving DecidableEq

/-- The ranking key of a BLOCK line: the text between the last `(` and the last `)` with the
first instance of each label removed, or the bucket `その他`. -/
def blockKey (line : List Nat) : Option (List Nat) :=
  let start := LastIndex line (utf8 "(")
  let stop := LastIndex line (utf8 ")")
  if start ≠ -1 ∧ stop ≠ -1 ∧ stop > start then
    (slice line (start + 1) stop).map
      (fun reason => Replace (utf8 "禁止用語: ") (Replace (utf8 "検知: ") reason))
  else some (utf8 "その他")

/-- The `timePart` of a line. -/
def timePart (line : List Nat) : Option (List Nat) :=
  if line.length > 20 then slice line 1 20 else some []

/-- The `messagePart` of a line. -/
def messagePart (line : List Nat) : Option (List Nat) :=
  let idx := LastIndex line (utf8 "内容: ")
  if idx ≠ -1 then slice line (idx + 7) line.length else some []

/-- The body of the loop for a line that is not skipped. -/
def processLine (st : LoopState) (line : List Nat) : Option LoopState :=
  if Contains line (utf8 "[BLOCK]") then
    match blockKey line, timePart line, messagePart line with
    | some key, some t, some m =>
      some { logs := st.logs ++ [{ Time := t, Status := utf8 "BLOCK", Message := m }],
             blockCount := st.blockCount + 1,
             allowCount := st.allowCount,
             keywordMap := increment st.keywordMap key }
    | _, _, _ => none
  else
    match timePart line, messagePart line with
    | some t, some m =>
      some { logs := st.logs ++ [{ Time := t, Status := utf8 "ALLOW", Message := m }],
             blockCount := st.blockCount,
             allowCount := st.allowCount + 1,
             keywordMap := st.keywordMap }
    | _, _ => none

/-- The skip rule at the head of the loop body. -/
def skipped (line : List Nat) : Bool := decide (line = []) || !Contains line (utf8 "]")

/-- The loop over the lines of the log. -/
def adminLoop : List (List Nat) → LoopState → Option LoopState
  | [], st => some st
  | line :: rest, st =>
    if skipped line then adminLoop rest st
    else match processLine st line with
      | some st1 => adminLoop rest st1
      | none => none

/-- The `data` value handed to the dashboard template. -/
structure AdminData where
  Logs : List LogEntry
  Total : Nat
  Block : Nat
  Allow : Nat
  Ranking : Ranking
deriving DecidableEq

/-- `handleAdmin` up to the template: read the log (an unreadable file counts as empty), split
it into lines, run the loop, assemble the data.  `none` stands for a run-time panic. -/
def handleAdmin (fs : FS) : Option AdminData :=
  let content := fs.file.getD []
  (adminLoop (Split content) { logs := [], blockCount := 0, allowCount := 0, keywordMap := [] }).map
    (fun st => { Logs := st.logs, Total := st.blockCount + st.allowCount, Block := st.blockCount,
                 Allow := st.allowCount, Ranking := st.keywordMap })

/-! ## Vocabulary of the specification -/

/-- A request that reaches the security checks: method POST and a body that decoded to `message`. -/
def chatRequest (message : List Nat) : Request := { Method := utf8 "POST", Body := some message }

/-- The response of a rejection for `reason`: status 403 and the fixed text followed by the
reason. -/
def rejection (reason : List Nat) : Response :=
  { status := 403, body := utf8 "【遮断】セキュリティ違反です。\n理由: " ++ reason }

/-- Some substring of `s` matches the pattern in full. -/
def HasMatch (re : Regex) (s : List Nat) : Prop :=
  ∃ pre u post, s = pre ++ u ++ post ∧ re.Lang u

/-- Detector 1 of the specification: the first forbidden term found as a substring. -/
def detectForbidden (message : List Nat) : Option (List Nat) :=
  (forbiddenWords.find? (fun w => decide (w <:+: message))).map (fun w => utf8 "禁止用語: " ++ w)

/-- Detector 2 of the specification: an email address anywhere in the message. -/
def detectEmail (message : List Nat) : Option (List Nat) :=
  if MatchString emailPattern message then some (utf8 "検知: メールアドレス流出") else none

/-- Detector 3 of the specification: either credential shape anywhere in the message. -/
def detectApiKey (message : List Nat) : Option (List Nat) :=
  if MatchString googleKeyPattern message || MatchString awsKeyPattern message then
    some (utf8 "検知: APIキー流出")
  else none

/-- Detector 4 of the specification: a code keyword followed by whitespace. -/
def detectCode (message : List Nat) : Option (List Nat) :=
  if MatchString codePattern message then some (utf8 "検知: ソースコード送信") else none

/-- The detectors in their fixed priority order. -/
def detectors : List (List Nat → Option (List Nat)) :=
  [detectForbidden, detectEmail, detectApiKey, detectCode]

/-- The reason of the first detector, in list order, that blocks the message. -/
def firstBlocked : List (List Nat → Option (List Nat)) → List Nat → Option (List Nat)
  | [], _ => none
  | d :: ds, message =>
    match d message with
    | some reason => some reason
    | none => firstBlocked ds message

/-- Lower-case ASCII letter. -/
abbrev isLower (b : Nat) : Prop := 'a'.toNat ≤ b ∧ b ≤ 'z'.toNat

/-- Upper-case ASCII letter. -/
abbrev isUpper (b : Nat) : Prop := 'A'.toNat ≤ b ∧ b ≤ 'Z'.toNat

/-- ASCII digit. -/
abbrev isDigit (b : Nat) : Prop := '0'.toNat ≤ b ∧ b ≤ '9'.toNat

/-- A substring of the shape the specification gives for an email address: one or more of
`a-zA-Z0-9._%+-`, then `@`, then one or more of `a-zA-Z0-9.-`, then `.`, then two or more
letters. -/
def IsEmail (u : List Nat) : Prop :=
  ∃ loc dom tld, u = loc ++ utf8 "@" ++ dom ++ utf8 "." ++ tld ∧
    loc ≠ [] ∧ (∀ b ∈ loc, isLower b ∨ isUpper b ∨ isDigit b ∨ b ∈ utf8 "._%+-") ∧
    dom ≠ [] ∧ (∀ b ∈ dom, isLower b ∨ isUpper b ∨ isDigit b ∨ b ∈ utf8 ".-") ∧
    2 ≤ tld.length ∧ (∀ b ∈ tld, isLower b ∨ isUpper b)

/-- No detector matches: no forbidden term occurs and no pattern matches any substring. -/
def Clear (message : List Nat) : Prop :=
  (∀ w ∈ forbiddenWords, ¬ w <:+: message) ∧ ¬ HasMatch emailPattern message ∧
    ¬ HasMatch googleKeyPattern message ∧ ¬ HasMatch awsKeyPattern message ∧
    ¬ HasMatch codePattern message

/-- The first credential shape of the specification: `AIza` immediately followed by 35
characters, each from `[0-9A-Za-z_-]`. -/
def IsGoogleKey (u : List Nat) : Prop :=
  ∃ key, u = utf8 "AIza" ++ key ∧ key.length = 35 ∧
    ∀ b ∈ key, isDigit b ∨ isUpper b ∨ isLower b ∨ b = '_'.toNat ∨ b = '-'.toNat

/-- The second credential shape of the specification: `AKIA` immediately followed by 16
characters, each from `[0-9A-Z]`. -/
def IsAwsKey (u : List Nat) : Prop :=
  ∃ key, u = utf8 "AKIA" ++ key ∧ key.length = 16 ∧ ∀ b ∈ key, isDigit b ∨ isUpper b

/-- What `time.Now().Format("2006-01-02 15:04:05")` returns for a four-digit year: 19 bytes,
each a digit, a hyphen, a colon or a space. -/
def isTimestamp (now : List Nat) : Prop :=
  now.length = 19 ∧ ∀ b ∈ now, isDigit b ∨ b ∈ utf8 "-: "

/-- The log is empty or ends with a line feed, as it does after any number of writes. -/
def Terminated (content : List Nat) : Prop := content = [] ∨ utf8 "\n" <:+ content

/-- The text of an audit line without its final line feed. -/
def recordText (now status message : List Nat) : List Nat :=
  utf8 "[" ++ now ++ utf8 "] [" ++ status ++ utf8 "] 内容: " ++ message

/-- The keywords of the source-code check. -/
def codeKeywords : List (List Nat) :=
  [utf8 "func", utf8 "class", utf8 "import", utf8 "package", utf8 "def", utf8 "public",
   utf8 "private"]

/-- A whitespace character in the sense of the pattern class `\s`: tab, line feed, form feed,
carriage return or space. -/
abbrev isSpace (b : Nat) : Prop := b = 9 ∨ b = 10 ∨ b = 12 ∨ b = 13 ∨ b = 32

/-- The message contains a code keyword immediately followed by a whitespace character; the
keyword may start anywhere, also inside a word. -/
def HasCodeKeyword (message : List Nat) : Prop :=
  ∃ pre kw b post, message = pre ++ kw ++ b :: post ∧ kw ∈ codeKeywords ∧ isSpace b

/-- The text `r` stands strictly between the last `(` of the line and its last `)`, the `)`
coming after the `(`. -/
def BetweenLastParens (line r : List Nat) : Prop :=
  ∃ x z, line = x ++ utf8 "(" ++ r ++ utf8 ")" ++ z ∧
    ¬ utf8 "(" <:+: r ∧ ¬ utf8 "(" <:+: z ∧ ¬ utf8 ")" <:+: z

/-- The reading of the specification: one leading label, `検知: ` or `禁止用語: `, is removed and
nothing else. -/
def stripLeadingLabel (reason : List Nat) : List Nat :=
  if startsWith reason (utf8 "検知: ") then reason.drop (utf8 "検知: ").length
  else if startsWith reason (utf8 "禁止用語: ") then reason.drop (utf8 "禁止用語: ").length
  else reason

/-- The sum of the counts held in a ranking. -/
def total (m : Ranking) : Nat := (m.map (fun p => p.2)).sum

/-- A line passes the skip rule: it is not empty and holds `]`. -/
def survives (line : List Nat) : Bool := decide (line ≠ [] ∧ utf8 "]" <:+: line)

/-- The lines of a log content that pass the skip rule, in file order. -/
def survivors (content : List Nat) : List (List Nat) := (Split content).filter survives

/-- A line holds the marker `[BLOCK]`. -/
def isBlockLine (line : List Nat) : Bool := decide (utf8 "[BLOCK]" <:+: line)

/-! ## Facts about the string functions -/

theorem startsWith_iff (s p : List Nat) : startsWith s p = true ↔ p <+: s := by
  induction p generalizing s with
  | nil => simp [startsWith]
  | cons b p ih =>
    cases s with
    | nil => simp [startsWith]
    | cons a s =>
      simp only [startsWith, Bool.and_eq_true, beq_iff_eq, ih, List.cons_prefix_cons]
      constructor
      · rintro ⟨h1, h2⟩; exact ⟨h1.symm, h2⟩
      · rintro ⟨h1, h2⟩; exact ⟨h1.symm, h2⟩

theorem indexFrom_nil (sub : List Nat) (i : Nat) :
    indexFrom sub [] i = if startsWith [] sub then (i : Int) else -1 := by
  rw [indexFrom]

theorem indexFrom_cons (sub : List Nat) (a : Nat) (t : List Nat) (i : Nat) :
    indexFrom sub (a :: t) i =
      if startsWith (a :: t) sub then (i : Int) else indexFrom sub t (i + 1) := by
  rw [indexFrom]

theorem lastIndexFrom_nil (sub : List Nat) (i : Nat) :
    lastIndexFrom sub [] i = if startsWith [] sub then (i : Int) else -1 := by
  rw [lastIndexFrom]

theorem lastIndexFrom_cons (sub : List Nat) (a : Nat) (t : List Nat) (i : Nat) :
    lastIndexFrom sub (a :: t) i =
      if lastIndexFrom sub t (i + 1) ≠ -1 then lastIndexFrom sub t (i + 1)
      else if startsWith (a :: t) sub then (i : Int) else -1 := by
  rw [lastIndexFrom]

theorem Split_cons (a : Nat) (t : List Nat) :
    Split (a :: t) =
      if a = 10 then [] :: Split t
      else match Split t with
        | [] => [[a]]
        | l :: ls => (a :: l) :: ls := by
  rw [Split]

theorem indexFrom_nonneg_iff (sub s : List Nat) (i : Nat) :
    0 ≤ indexFrom sub s i ↔ sub <:+: s := by
  induction s generalizing i with
  | nil =>
    rw [indexFrom_nil]
    by_cases h : startsWith [] sub = true
    · simp only [h, if_true]
      have := (startsWith_iff [] sub).1 h
      constructor
      · intro _; exact this.isInfix
      · intro _; omega
    · simp only [h]
      constructor
      · intro h0; simp at h0
      · intro h1
        exfalso; apply h
        rw [startsWith_iff]
        have := List.eq_nil_of_infix_nil h1
        simp [this]
  | cons a t ih =>
    rw [indexFrom_cons]
    by_cases h : startsWith (a :: t) sub = true
    · simp only [h, if_true]
      constructor
      · intro _; exact ((startsWith_iff _ _).1 h).isInfix
      · intro _; omega
    · simp only [h, Bool.false_eq_true, if_false]
      rw [ih, List.infix_cons_iff]
      constructor
      · intro h1; exact Or.inr h1
      · rintro (h1 | h1)
        · exact absurd ((startsWith_iff _ _).2 h1) h
        · exact h1

theorem Contains_iff (s sub : List Nat) : Contains s sub = true ↔ sub <:+: s := by
  simp only [Contains, Index, decide_eq_true_eq, ge_iff_le]
  exact indexFrom_nonneg_iff sub s 0

theorem Contains_eq_false_iff (s sub : List Nat) : Contains s sub = false ↔ ¬ sub <:+: s := by
  rw [← Contains_iff]; simp

theorem lastIndexFrom_bounds (sub s : List Nat) (i : Nat) :
    lastIndexFrom sub s i = -1 ∨
      ((i : Int) ≤ lastIndexFrom sub s i ∧
        lastIndexFrom sub s i + sub.length ≤ (i : Int) + s.length) := by
  induction s generalizing i with
  | nil =>
    rw [lastIndexFrom_nil]
    by_cases h : startsWith [] sub = true
    · have h1 := List.eq_nil_of_prefix_nil ((startsWith_iff _ _).1 h)
      subst h1
      simp [startsWith]
    · simp [h]
  | cons a t ih =>
    rw [lastIndexFrom_cons]
    by_cases hr : lastIndexFrom sub t (i + 1) = -1
    · simp only [hr, ne_eq, not_true_eq_false, if_false]
      by_cases h : startsWith (a :: t) sub = true
      · simp only [h, if_true]
        right
        have h1 := ((startsWith_iff _ _).1 h).length_le
        simp only [List.length_cons] at h1 ⊢
        omega
      · simp [h]
    · simp only [ne_eq, hr, not_false_eq_true, if_true]
      rcases ih (i + 1) with h1 | ⟨h1, h2⟩
      · exact absurd h1 hr
      · right
        simp only [List.length_cons]
        push_cast at h1 h2 ⊢
        omega

theorem lastIndexFrom_absent (sub s : List Nat) (i : Nat) (h : ¬ sub <:+: s) :
    lastIndexFrom sub s i = -1 := by
  induction s generalizing i with
  | nil =>
    rw [lastIndexFrom_nil]
    have h1 : ¬ startsWith [] sub = true := fun h2 => h ((startsWith_iff _ _).1 h2).isInfix
    simp [h1]
  | cons a t ih =>
    rw [lastIndexFrom_cons]
    have h1 : ¬ startsWith (a :: t) sub = true := fun h2 => h ((startsWith_iff _ _).1 h2).isInfix
    have h2 : ¬ sub <:+: t := fun h3 => h (List.infix_cons h3)
    simp [ih (i + 1) h2, h1]

/-- The last instance of `sub` is the one after `x` when no instance starts further right. -/
theorem lastIndexFrom_append (sub x y : List Nat) (i : Nat) (hs : sub ≠ [])
    (h : ¬ sub <:+: (sub ++ y).tail) :
    lastIndexFrom sub (x ++ (sub ++ y)) i = (i : Int) + x.length := by
  induction x generalizing i with
  | nil =>
    cases hsy : sub ++ y with
    | nil => simp [hs] at hsy
    | cons a t =>
      rw [hsy] at h
      simp only [List.tail_cons] at h
      have h1 : startsWith (a :: t) sub = true := by
        rw [startsWith_iff, ← hsy]; exact List.prefix_append _ _
      simp only [List.nil_append, List.length_nil]
      rw [lastIndexFrom_cons]
      simp [lastIndexFrom_absent sub t (i + 1) h, h1]
  | cons a x ih =>
    simp only [List.cons_append, List.length_cons]
    rw [lastIndexFrom_cons]
    simp only [ih (i + 1)]
    have : ((i + 1 : Nat) : Int) + (x.length : Int) ≠ -1 := by omega
    simp only [ne_eq, this, not_false_eq_true, if_true]
    push_cast
    omega

theorem LastIndex_append (sub x y : List Nat) (hs : sub ≠ [])
    (h : ¬ sub <:+: (sub ++ y).tail) : LastIndex (x ++ (sub ++ y)) sub = x.length := by
  have := lastIndexFrom_append sub x y 0 hs h
  simpa [LastIndex] using this

theorem LastIndex_bounds (s sub : List Nat) :
    LastIndex s sub = -1 ∨ (0 ≤ LastIndex s sub ∧ LastIndex s sub + sub.length ≤ s.length) := by
  have := lastIndexFrom_bounds sub s 0
  simpa [LastIndex] using this

theorem Split_ne_nil (s : List Nat) : Split s ≠ [] := by
  cases s with
  | nil => simp [Split]
  | cons a t =>
    rw [Split_cons]
    split
    · simp
    · split <;> simp

/-- Splitting at a line feed: the pieces before it, then the pieces after it. -/
theorem Split_append_lf (x y : List Nat) : Split (x ++ 10 :: y) = Split x ++ Split y := by
  induction x with
  | nil => simp [Split]
  | cons a t ih =>
    simp only [List.cons_append]
    rw [Split_cons, Split_cons]
    by_cases ha : a = 10
    · simp [ha, ih]
    · simp only [ha, if_false, ih]
      cases hs : Split t with
      | nil => exact absurd hs (Split_ne_nil t)
      | cons l ls => simp

theorem Split_of_no_lf (l : List Nat) (h : 10 ∉ l) : Split l = [l] := by
  induction l with
  | nil => simp [Split]
  | cons a t ih =>
    simp only [List.mem_cons, not_or] at h
    rw [Split_cons]
    have ha : ¬ a = 10 := fun e => h.1 e.symm
    simp [ha, ih h.2]

/-! ## Facts about the pattern matcher -/

theorem repK_iff (c : ByteClass) (n : Nat) (s : List Nat) (k : List Nat → Bool) :
    repK c n s k = true ↔
      ∃ u t, s = u ++ t ∧ u.length = n ∧ (∀ b ∈ u, inClass c b = true) ∧ k t = true := by
  induction n generalizing s with
  | zero =>
    simp only [repK]
    constructor
    · intro h; exact ⟨[], s, rfl, rfl, by simp, h⟩
    · rintro ⟨u, t, rfl, hu, -, hk⟩
      have : u = [] := List.length_eq_zero.1 hu
      subst this; simpa using hk
  | succ n ih =>
    cases s with
    | nil =>
      simp only [repK]
      constructor
      · intro h; exact absurd h (by simp)
      · rintro ⟨u, t, hs, hu, -, -⟩
        have : u = [] := by
          have := congrArg List.length hs
          simp only [List.length_nil, List.length_append] at this
          exact List.length_eq_zero.1 (by omega)
        subst this; simp at hu
    | cons a s =>
      simp only [repK, Bool.and_eq_true, ih]
      constructor
      · rintro ⟨ha, u, t, rfl, hu, hc, hk⟩
        refine ⟨a :: u, t, rfl, by simp [hu], ?_, hk⟩
        intro b hb
        rcases List.mem_cons.1 hb with rfl | hb
        · exact ha
        · exact hc b hb
      · rintro ⟨u, t, hs, hu, hc, hk⟩
        cases u with
        | nil => simp at hu
        | cons b u =>
          simp only [List.cons_append, List.cons.injEq] at hs
          obtain ⟨rfl, rfl⟩ := hs
          refine ⟨hc a (List.mem_cons_self _ _), u, t, rfl, by simpa using hu, ?_, hk⟩
          intro b hb
          exact hc b (List.mem_cons_of_mem _ hb)

theorem starK_iff (c : ByteClass) (s : List Nat) (k : List Nat → Bool) :
    starK c s k = true ↔ ∃ u t, s = u ++ t ∧ (∀ b ∈ u, inClass c b = true) ∧ k t = true := by
  induction s with
  | nil =>
    simp only [starK]
    constructor
    · intro h; exact ⟨[], [], rfl, by simp, h⟩
    · rintro ⟨u, t, hs, -, hk⟩
      have := congrArg List.length hs
      simp only [List.length_nil, List.length_append] at this
      have ht : t = [] := List.length_eq_zero.1 (by omega)
      subst ht; exact hk
  | cons a s ih =>
    simp only [starK, Bool.or_eq_true, Bool.and_eq_true, ih]
    constructor
    · rintro (h | ⟨ha, u, t, rfl, hc, hk⟩)
      · exact ⟨[], a :: s, rfl, by simp, h⟩
      · refine ⟨a :: u, t, rfl, ?_, hk⟩
        intro b hb
        rcases List.mem_cons.1 hb with rfl | hb
        · exact ha
        · exact hc b hb
    · rintro ⟨u, t, hs, hc, hk⟩
      cases u with
      | nil =>
        simp only [List.nil_append] at hs
        subst hs; exact Or.inl hk
      | cons b u =>
        simp only [List.cons_append, List.cons.injEq] at hs
        obtain ⟨rfl, rfl⟩ := hs
        exact Or.inr ⟨hc a (List.mem_cons_self _ _), u, t, rfl,
          fun b hb => hc b (List.mem_cons_of_mem _ hb), hk⟩

theorem matchK_iff (r : Regex) (s : List Nat) (k : List Nat → Bool) :
    matchK r s k = true ↔ ∃ u t, s = u ++ t ∧ r.Lang u ∧ k t = true := by
  induction r generalizing s k with
  | lit bs =>
    simp only [matchK, Bool.and_eq_true, startsWith_iff, Regex.Lang]
    constructor
    · rintro ⟨⟨t, rfl⟩, hk⟩
      exact ⟨bs, t, rfl, rfl, by simpa using hk⟩
    · rintro ⟨u, t, rfl, rfl, hk⟩
      exact ⟨List.prefix_append _ _, by simpa using hk⟩
  | rep c n =>
    simp only [matchK, repK_iff, Regex.Lang]
    constructor
    · rintro ⟨u, t, hs, hu, hc, hk⟩; exact ⟨u, t, hs, ⟨hu, hc⟩, hk⟩
    · rintro ⟨u, t, hs, ⟨hu, hc⟩, hk⟩; exact ⟨u, t, hs, hu, hc, hk⟩
  | many c n =>
    simp only [matchK, repK_iff, starK_iff, Regex.Lang]
    constructor
    · rintro ⟨u, t, rfl, hu, hc, v, w, rfl, hv, hk⟩
      refine ⟨u ++ v, w, by simp, ⟨by simp [hu], ?_⟩, hk⟩
      intro b hb
      rcases List.mem_append.1 hb with hb | hb
      · exact hc b hb
      · exact hv b hb
    · rintro ⟨u, t, rfl, ⟨hu, hc⟩, hk⟩
      refine ⟨u.take n, u.drop n ++ t, ?_, ?_, ?_, u.drop n, t, rfl, ?_, hk⟩
      · rw [← List.append_assoc, List.take_append_drop]
      · simp [hu]
      · intro b hb; exact hc b (List.mem_of_mem_take hb)
      · intro b hb; exact hc b (List.mem_of_mem_drop hb)
  | seq a b iha ihb =>
    simp only [matchK, iha, ihb, Regex.Lang]
    constructor
    · rintro ⟨u, t, rfl, hu, v, w, rfl, hv, hk⟩
      exact ⟨u ++ v, w, by simp, ⟨u, v, rfl, hu, hv⟩, hk⟩
    · rintro ⟨u, t, rfl, ⟨v, w, rfl, hv, hw⟩, hk⟩
      exact ⟨v, w ++ t, by simp, hv, w, t, rfl, hw, hk⟩
  | alt a b iha ihb =>
    simp only [matchK, Bool.or_eq_true, iha, ihb, Regex.Lang]
    constructor
    · rintro (⟨u, t, hs, hu, hk⟩ | ⟨u, t, hs, hu, hk⟩)
      · exact ⟨u, t, hs, Or.inl hu, hk⟩
      · exact ⟨u, t, hs, Or.inr hu, hk⟩
    · rintro ⟨u, t, hs, hu | hu, hk⟩
      · exact Or.inl ⟨u, t, hs, hu, hk⟩
      · exact Or.inr ⟨u, t, hs, hu, hk⟩

theorem MatchString_iff (re : Regex) (s : List Nat) :
    MatchString re s = true ↔ ∃ pre u post, s = pre ++ u ++ post ∧ re.Lang u := by
  induction s with
  | nil =>
    simp only [MatchString, matchK_iff]
    constructor
    · rintro ⟨u, t, hs, hu, -⟩; exact ⟨[], u, t, by simpa using hs, hu⟩
    · rintro ⟨pre, u, post, hs, hu⟩
      have := congrArg List.length hs
      simp only [List.length_nil, List.length_append] at this
      have hp : pre = [] := List.length_eq_zero.1 (by omega)
      subst hp
      exact ⟨u, post, by simpa using hs, hu, trivial⟩
  | cons a s ih =>
    simp only [MatchString, Bool.or_eq_true, matchK_iff, ih]
    constructor
    · rintro (⟨u, t, hs, hu, -⟩ | ⟨pre, u, post, rfl, hu⟩)
      · exact ⟨[], u, t, by simpa using hs, hu⟩
      · exact ⟨a :: pre, u, post, by simp, hu⟩
    · rintro ⟨pre, u, post, hs, hu⟩
      cases pre with
      | nil => exact Or.inl ⟨u, post, by simpa using hs, hu, trivial⟩
      | cons b pre =>
        simp only [List.cons_append, List.cons.injEq] at hs
        obtain ⟨rfl, rfl⟩ := hs
        exact Or.inr ⟨pre, u, post, rfl, hu⟩

/-! ## The inspection pipeline -/

theorem forbiddenLoop_none (msg : List Nat) (ws : List (List Nat)) :
    forbiddenLoop msg ws = none ↔ ∀ w ∈ ws, ¬ w <:+: msg := by
  induction ws with
  | nil => simp [forbiddenLoop]
  | cons w ws ih =>
    simp only [forbiddenLoop, List.mem_cons, forall_eq_or_imp]
    by_cases h : Contains msg w = true
    · simp [h, (Contains_iff _ _).1 h]
    · have h1 : ¬ w <:+: msg := fun h2 => h ((Contains_iff _ _).2 h2)
      simp [h, h1, ih]

theorem forbiddenLoop_some (msg : List Nat) (ws : List (List Nat)) (w : List Nat)
    (h : forbiddenLoop msg ws = some w) :
    ∃ pre post, ws = pre ++ w :: post ∧ w <:+: msg ∧ ∀ v ∈ pre, ¬ v <:+: msg := by
  induction ws with
  | nil => simp [forbiddenLoop] at h
  | cons x ws ih =>
    simp only [forbiddenLoop] at h
    by_cases hx : Contains msg x = true
    · simp only [hx, if_true, Option.some.injEq] at h
      subst h
      exact ⟨[], ws, rfl, (Contains_iff _ _).1 hx, by simp⟩
    · simp only [hx, Bool.false_eq_true, if_false] at h
      obtain ⟨pre, post, rfl, hw, hpre⟩ := ih h
      refine ⟨x :: pre, post, rfl, hw, ?_⟩
      intro v hv
      rcases List.mem_cons.1 hv with rfl | hv
      · exact fun h2 => hx ((Contains_iff _ _).2 h2)
      · exact hpre v hv

theorem forbiddenLoop_eq_find (msg : List Nat) (ws : List (List Nat)) :
    forbiddenLoop msg ws = ws.find? (fun w => decide (w <:+: msg)) := by
  induction ws with
  | nil => rfl
  | cons w ws ih =>
    simp only [forbiddenLoop, List.find?_cons]
    by_cases h : Contains msg w = true
    · simp [h, (Contains_iff _ _).1 h]
    · have h1 : ¬ w <:+: msg := fun h2 => h ((Contains_iff _ _).2 h2)
      simp [h, h1, ih]

theorem handleChat_forbidden (fs : FS) (now msg w : List Nat)
    (h : forbiddenLoop msg forbiddenWords = some w) :
    handleChat fs now (chatRequest msg) = blockWithLog fs now msg (utf8 "禁止用語: " ++ w) := by
  simp [handleChat, chatRequest, h]

theorem handleChat_clean (fs : FS) (now msg : List Nat)
    (h : forbiddenLoop msg forbiddenWords = none) :
    handleChat fs now (chatRequest msg) =
      if MatchString emailPattern msg then
        blockWithLog fs now msg (utf8 "検知: メールアドレス流出")
      else if MatchString googleKeyPattern msg || MatchString awsKeyPattern msg then
        blockWithLog fs now msg (utf8 "検知: APIキー流出")
      else if MatchString codePattern msg then
        blockWithLog fs now msg (utf8 "検知: ソースコード送信")
      else
        (writeAuditLog fs now (utf8 "ALLOW") msg, { status := 200, body := askGeminiMock msg }) := by
  simp [handleChat, chatRequest, h]

theorem blockWithLog_snd (fs : FS) (now msg reason : List Nat) :
    (blockWithLog fs now msg reason).2 = rejection reason := rfl

/-- C1: a message containing a forbidden term is rejected with status 403, and the reason is
`禁止用語: ` followed by the first term, in list order, that occurs in the message. -/
theorem C1_forbidden_term_first_in_list_order (fs : FS) (now msg : List Nat)
    (h : ∃ w ∈ forbiddenWords, w <:+: msg) :
    ∃ pre w post, forbiddenWords = pre ++ w :: post ∧ w <:+: msg ∧ (∀ v ∈ pre, ¬ v <:+: msg) ∧
      handleChat fs now (chatRequest msg) = blockWithLog fs now msg (utf8 "禁止用語: " ++ w) ∧
      (handleChat fs now (chatRequest msg)).2 =
        { status := 403, body := utf8 "【遮断】セキュリティ違反です。\n理由: 禁止用語: " ++ w } := by
  cases hl : forbiddenLoop msg forbiddenWords with
  | none =>
    obtain ⟨w, hw, hin⟩ := h
    exact absurd hin ((forbiddenLoop_none _ _).1 hl w hw)
  | some w =>
    obtain ⟨pre, post, hws, hw, hpre⟩ := forbiddenLoop_some _ _ _ hl
    refine ⟨pre, w, post, hws, hw, hpre, handleChat_forbidden fs now msg w hl, ?_⟩
    rw [handleChat_forbidden fs now msg w hl, blockWithLog_snd, rejection]
    have : utf8 "【遮断】セキュリティ違反です。\n理由: " ++ utf8 "禁止用語: "
        = utf8 "【遮断】セキュリティ違反です。\n理由: 禁止用語: " := by decide
    rw [← this, List.append_assoc]

/-- C1 at the message `"my password is 1234"`: rejected, the term named is `password`. -/
theorem C1_witness :
    (∃ w ∈ forbiddenWords, w <:+: utf8 "my password is 1234") ∧
    (∃ pre w post, forbiddenWords = pre ++ w :: post ∧ w <:+: utf8 "my password is 1234" ∧
      (∀ v ∈ pre, ¬ v <:+: utf8 "my password is 1234") ∧
      handleChat ⟨some [], true⟩ (utf8 "2026-11-04 09:07:00") (chatRequest (utf8 "my password is 1234"))
        = blockWithLog ⟨some [], true⟩ (utf8 "2026-11-04 09:07:00") (utf8 "my password is 1234")
            (utf8 "禁止用語: " ++ w) ∧
      (handleChat ⟨some [], true⟩ (utf8 "2026-11-04 09:07:00")
          (chatRequest (utf8 "my password is 1234"))).2 =
        { status := 403, body := utf8 "【遮断】セキュリティ違反です。\n理由: 禁止用語: " ++ w }) ∧
    (handleChat ⟨some [], true⟩ (utf8 "2026-11-04 09:07:00")
        (chatRequest (utf8 "my password is 1234"))).2 =
      { status := 403, body := utf8 "【遮断】セキュリティ違反です。\n理由: 禁止用語: password" } :=
  ⟨⟨utf8 "password", by decide, by decide⟩,
   C1_forbidden_term_first_in_list_order ⟨some [], true⟩ (utf8 "2026-11-04 09:07:00")
     (utf8 "my password is 1234") ⟨utf8 "password", by decide, by decide⟩,
   by decide⟩

theorem firstBlocked_detectors (msg : List Nat) :
    firstBlocked detectors msg =
      match forbiddenLoop msg forbiddenWords with
      | some w => some (utf8 "禁止用語: " ++ w)
      | none =>
        if MatchString emailPattern msg then some (utf8 "検知: メールアドレス流出")
        else if MatchString googleKeyPattern msg || MatchString awsKeyPattern msg then
          some (utf8 "検知: APIキー流出")
        else if MatchString codePattern msg then some (utf8 "検知: ソースコード送信")
        else none := by
  simp only [detectors, firstBlocked, detectForbidden, ← forbiddenLoop_eq_find]
  cases forbiddenLoop msg forbiddenWords with
  | some w => simp
  | none =>
    simp only [Option.map_none', detectEmail, detectApiKey, detectCode]
    by_cases h1 : MatchString emailPattern msg = true
    · simp [h1]
    · by_cases h2 : (MatchString googleKeyPattern msg || MatchString awsKeyPattern msg) = true
      · simp only [h1, h2]; simp
      · by_cases h3 : MatchString codePattern msg = true
        · simp only [h1, h2, h3]; simp
        · simp only [h1, h2, h3]; simp

/-- C2: the outcome of `handleChat` is that of the first detector, in the order forbidden term,
email address, API key, source code, that blocks the message (and the ALLOW path when none
does); a message with both a forbidden term and an email address is rejected for the
forbidden term, not for personal data. -/
theorem C2_first_detector_in_fixed_order (fs : FS) (now msg : List Nat) :
    handleChat fs now (chatRequest msg) =
      (match firstBlocked detectors msg with
        | some reason => blockWithLog fs now msg reason
        | none => (writeAuditLog fs now (utf8 "ALLOW") msg,
                   { status := 200, body := askGeminiMock msg })) ∧
    ((∃ w ∈ forbiddenWords, w <:+: msg) → HasMatch emailPattern msg →
      (∃ w ∈ forbiddenWords, w <:+: msg ∧
        (handleChat fs now (chatRequest msg)).2 = rejection (utf8 "禁止用語: " ++ w)) ∧
      (handleChat fs now (chatRequest msg)).2 ≠ rejection (utf8 "検知: メールアドレス流出")) := by
  constructor
  · rw [firstBlocked_detectors]
    cases hl : forbiddenLoop msg forbiddenWords with
    | some w => simp [handleChat_forbidden fs now msg w hl]
    | none =>
      rw [handleChat_clean fs now msg hl]
      by_cases h1 : MatchString emailPattern msg = true
      · simp [h1]
      · by_cases h2 : (MatchString googleKeyPattern msg || MatchString awsKeyPattern msg) = true
        · simp only [h1, h2]; simp
        · by_cases h3 : MatchString codePattern msg = true
          · simp only [h1, h2, h3]; simp
          · simp only [h1, h2, h3]; simp
  · intro h _
    cases hl : forbiddenLoop msg forbiddenWords with
    | none =>
      obtain ⟨w, hw, hin⟩ := h
      exact absurd hin ((forbiddenLoop_none _ _).1 hl w hw)
    | some w =>
      obtain ⟨pre, post, hws, hw, -⟩ := forbiddenLoop_some _ _ _ hl
      have hc := handleChat_forbidden fs now msg w hl
      refine ⟨⟨w, by rw [hws]; simp, hw, by rw [hc]; rfl⟩, ?_⟩
      rw [hc, blockWithLog_snd]
      intro he
      simp only [rejection, Response.mk.injEq, List.append_cancel_left_eq, true_and] at he
      obtain ⟨t1, e1⟩ : ∃ t, utf8 "禁止用語: " = 231 :: t := ⟨_, rfl⟩
      obtain ⟨t2, e2⟩ : ∃ t, utf8 "検知: メールアドレス流出" = 230 :: t := ⟨_, rfl⟩
      rw [e1, e2] at he
      simp at he

/-- C2 at a message with the forbidden term `password` and the address `a@b.com`. -/
theorem C2_witness :
    (handleChat ⟨some [], true⟩ (utf8 "2026-11-04 09:07:00")
        (chatRequest (utf8 "password a@b.com"))).2 = rejection (utf8 "禁止用語: password") ∧
    MatchString emailPattern (utf8 "password a@b.com") = true ∧
    firstBlocked detectors (utf8 "password a@b.com") = some (utf8 "禁止用語: password") ∧
    handleChat ⟨some [], true⟩ (utf8 "2026-11-04 09:07:00") (chatRequest (utf8 "password a@b.com")) =
      (match firstBlocked detectors (utf8 "password a@b.com") with
        | some reason =>
          blockWithLog ⟨some [], true⟩ (utf8 "2026-11-04 09:07:00") (utf8 "password a@b.com") reason
        | none => (writeAuditLog ⟨some [], true⟩ (utf8 "2026-11-04 09:07:00") (utf8 "ALLOW")
                     (utf8 "password a@b.com"),
                   { status := 200, body := askGeminiMock (utf8 "password a@b.com") })) :=
  ⟨by decide, by decide, by decide,
   (C2_first_detector_in_fixed_order ⟨some [], true⟩ (utf8 "2026-11-04 09:07:00")
      (utf8 "password a@b.com")).1⟩

theorem inClass_local (b : Nat) :
    inClass [chr 'a' 'z', chr 'A' 'Z', chr '0' '9', chr '.' '.', chr '_' '_', chr '%' '%',
        chr '+' '+', chr '-' '-'] b = true ↔
      (isLower b ∨ isUpper b ∨ isDigit b ∨ b ∈ utf8 "._%+-") := by
  have e : utf8 "._%+-" = [46, 95, 37, 43, 45] := by decide
  rw [e]
  simp [inClass, chr, isLower, isUpper, isDigit]
  omega

theorem inClass_domain (b : Nat) :
    inClass [chr 'a' 'z', chr 'A' 'Z', chr '0' '9', chr '.' '.', chr '-' '-'] b = true ↔
      (isLower b ∨ isUpper b ∨ isDigit b ∨ b ∈ utf8 ".-") := by
  have e : utf8 ".-" = [46, 45] := by decide
  rw [e]
  simp [inClass, chr, isLower, isUpper, isDigit]
  omega

theorem inClass_letter (b : Nat) :
    inClass [chr 'a' 'z', chr 'A' 'Z'] b = true ↔ (isLower b ∨ isUpper b) := by
  simp [inClass, chr, isLower, isUpper]

theorem emailPattern_Lang (u : List Nat) : emailPattern.Lang u ↔ IsEmail u := by
  simp only [emailPattern, Regex.Lang, IsEmail, inClass_local, inClass_domain, inClass_letter]
  constructor
  · rintro ⟨loc, w1, rfl, ⟨h1, hloc⟩, at_, w2, rfl, rfl, dom, w3, rfl, ⟨h2, hdom⟩, dot, tld, rfl,
      rfl, h3, htld⟩
    refine ⟨loc, dom, tld, by simp, ?_, hloc, ?_, hdom, h3, htld⟩
    · intro e; subst e; simp at h1
    · intro e; subst e; simp at h2
  · rintro ⟨loc, dom, tld, rfl, h1, hloc, h2, hdom, h3, htld⟩
    refine ⟨loc, utf8 "@" ++ (dom ++ (utf8 "." ++ tld)), by simp, ⟨?_, hloc⟩, utf8 "@", _, rfl, rfl,
      dom, _, rfl, ⟨?_, hdom⟩, utf8 ".", tld, rfl, rfl, h3, htld⟩
    · exact List.length_pos.2 h1
    · exact List.length_pos.2 h2

theorem hasMatch_iff (re : Regex) (s : List Nat) : HasMatch re s ↔ MatchString re s = true :=
  (MatchString_iff re s).symm

theorem not_hasMatch_iff (re : Regex) (s : List Nat) :
    ¬ HasMatch re s ↔ MatchString re s = false := by
  rw [hasMatch_iff]; simp

/-- C3: a message with no forbidden term that contains a substring of the email shape is
rejected as personal data, with status 403 and the fixed reason `検知: メールアドレス流出`,
whatever the address and however many there are. -/
theorem C3_email_rejected_with_fixed_reason (fs : FS) (now msg : List Nat)
    (hno : ∀ w ∈ forbiddenWords, ¬ w <:+: msg)
    (hmail : ∃ pre u post, msg = pre ++ u ++ post ∧ IsEmail u) :
    handleChat fs now (chatRequest msg) =
      blockWithLog fs now msg (utf8 "検知: メールアドレス流出") ∧
    (handleChat fs now (chatRequest msg)).2 =
      { status := 403, body := utf8 "【遮断】セキュリティ違反です。\n理由: 検知: メールアドレス流出" } := by
  have hl := (forbiddenLoop_none msg forbiddenWords).2 hno
  have hm : MatchString emailPattern msg = true := by
    rw [MatchString_iff]
    obtain ⟨pre, u, post, hs, hu⟩ := hmail
    exact ⟨pre, u, post, hs, (emailPattern_Lang u).2 hu⟩
  have hc : handleChat fs now (chatRequest msg) =
      blockWithLog fs now msg (utf8 "検知: メールアドレス流出") := by
    rw [handleChat_clean fs now msg hl]; simp [hm]
  refine ⟨hc, ?_⟩
  rw [hc, blockWithLog_snd, rejection]
  have : utf8 "【遮断】セキュリティ違反です。\n理由: " ++ utf8 "検知: メールアドレス流出"
      = utf8 "【遮断】セキュリティ違反です。\n理由: 検知: メールアドレス流出" := by decide
  rw [this]

/-- C3 at the message `"contact me at a@b.com"`, whose substring `a@b.com` has the email shape. -/
theorem C3_witness :
    (∀ w ∈ forbiddenWords, ¬ w <:+: utf8 "contact me at a@b.com") ∧
    (∃ pre u post, utf8 "contact me at a@b.com" = pre ++ u ++ post ∧ IsEmail u) ∧
    handleChat ⟨some [], true⟩ (utf8 "2026-11-04 09:07:00") (chatRequest (utf8 "contact me at a@b.com")) =
      blockWithLog ⟨some [], true⟩ (utf8 "2026-11-04 09:07:00") (utf8 "contact me at a@b.com")
        (utf8 "検知: メールアドレス流出") ∧
    (handleChat ⟨some [], true⟩ (utf8 "2026-11-04 09:07:00")
        (chatRequest (utf8 "contact me at a@b.com"))).2 =
      { status := 403, body := utf8 "【遮断】セキュリティ違反です。\n理由: 検知: メールアドレス流出" } :=
  have hno : ∀ w ∈ forbiddenWords, ¬ w <:+: utf8 "contact me at a@b.com" := by decide
  have hmail : ∃ pre u post, utf8 "contact me at a@b.com" = pre ++ u ++ post ∧ IsEmail u :=
    ⟨utf8 "contact me at ", utf8 "a@b.com", [], by decide,
      utf8 "a", utf8 "b", utf8 "com", by decide, by decide, by decide, by decide, by decide,
      by decide, by decide⟩
  ⟨hno, hmail,
   C3_email_rejected_with_fixed_reason ⟨some [], true⟩ (utf8 "2026-11-04 09:07:00")
     (utf8 "contact me at a@b.com") hno hmail⟩

/-! ## The log reader -/

theorem slice_some (s : List Nat) (lo hi : Int) (h : 0 ≤ lo ∧ lo ≤ hi ∧ hi ≤ (s.length : Int)) :
    slice s lo hi = some ((s.take hi.toNat).drop lo.toNat) := by
  simp [slice, h]

theorem blockKey_total (line : List Nat) : ∃ key, blockKey line = some key := by
  unfold blockKey
  simp only
  split
  · rename_i h
    have h1 := LastIndex_bounds line (utf8 "(")
    have h2 := LastIndex_bounds line (utf8 ")")
    have e2 : (utf8 ")").length = 1 := by decide
    rw [e2] at h2
    rw [slice_some line _ _ (by omega)]
    exact ⟨_, rfl⟩
  · exact ⟨_, rfl⟩

theorem timePart_total (line : List Nat) : ∃ t, timePart line = some t := by
  unfold timePart
  split
  · rename_i h
    rw [slice_some line _ _ (by omega)]
    exact ⟨_, rfl⟩
  · exact ⟨_, rfl⟩

theorem messagePart_total (line : List Nat) : ∃ m, messagePart line = some m := by
  unfold messagePart
  simp only
  split
  · rename_i h
    have h1 := LastIndex_bounds line (utf8 "内容: ")
    have e : (utf8 "内容: ").length = 8 := by decide
    rw [e] at h1
    rw [slice_some line _ _ (by omega)]
    exact ⟨_, rfl⟩
  · exact ⟨_, rfl⟩

/-- The loop body never panics; it adds one record, and one unit to one counter. -/
theorem processLine_total (st : LoopState) (line : List Nat) :
    ∃ key t m, blockKey line = some key ∧ timePart line = some t ∧ messagePart line = some m ∧
      processLine st line = some
        (if Contains line (utf8 "[BLOCK]") = true then
          { logs := st.logs ++ [{ Time := t, Status := utf8 "BLOCK", Message := m }],
            blockCount := st.blockCount + 1,
            allowCount := st.allowCount,
            keywordMap := increment st.keywordMap key }
        else
          { logs := st.logs ++ [{ Time := t, Status := utf8 "ALLOW", Message := m }],
            blockCount := st.blockCount,
            allowCount := st.allowCount + 1,
            keywordMap := st.keywordMap }) := by
  obtain ⟨key, hk⟩ := blockKey_total line
  obtain ⟨t, ht⟩ := timePart_total line
  obtain ⟨m, hm⟩ := messagePart_total line
  refine ⟨key, t, m, hk, ht, hm, ?_⟩
  unfold processLine
  by_cases hb : Contains line (utf8 "[BLOCK]") = true
  · simp [hb, hk, ht, hm]
  · simp [hb, ht, hm]

theorem adminLoop_total (ls : List (List Nat)) (st : LoopState) :
    ∃ st1, adminLoop ls st = some st1 := by
  induction ls generalizing st with
  | nil => exact ⟨st, rfl⟩
  | cons line rest ih =>
    simp only [adminLoop]
    by_cases hs : skipped line = true
    · simp only [hs, if_true]; exact ih st
    · obtain ⟨key, t, m, -, -, -, hp⟩ := processLine_total st line
      simp only [hs, Bool.false_eq_true, if_false, hp]
      exact ih _

theorem adminLoop_append (xs ys : List (List Nat)) (st : LoopState) :
    adminLoop (xs ++ ys) st = (adminLoop xs st).bind (adminLoop ys) := by
  induction xs generalizing st with
  | nil => rfl
  | cons line rest ih =>
    simp only [List.cons_append, adminLoop]
    by_cases hs : skipped line = true
    · simp only [hs, if_true]; exact ih st
    · simp only [hs, Bool.false_eq_true, if_false]
      cases hp : processLine st line with
      | none => rfl
      | some st1 => exact ih st1

theorem adminLoop_counts (ls : List (List Nat)) (st st1 : LoopState)
    (h : adminLoop ls st = some st1) (hinv : st.blockCount + st.allowCount = st.logs.length) :
    st1.blockCount + st1.allowCount = st1.logs.length := by
  induction ls generalizing st with
  | nil =>
    simp only [adminLoop, Option.some.injEq] at h
    subst h; exact hinv
  | cons line rest ih =>
    simp only [adminLoop] at h
    by_cases hs : skipped line = true
    · simp only [hs, if_true] at h; exact ih st h hinv
    · obtain ⟨key, t, m, -, -, -, hp⟩ := processLine_total st line
      simp only [hs, Bool.false_eq_true, if_false, hp] at h
      refine ih _ h ?_
      by_cases hb : Contains line (utf8 "[BLOCK]") = true
      · simp only [hb, if_true, List.length_append, List.length_singleton]; omega
      · simp only [hb, Bool.false_eq_true, if_false, List.length_append, List.length_singleton]
        omega

/-- The data of `handleAdmin` in terms of the final loop state. -/
theorem handleAdmin_eq (fs : FS) :
    ∃ st, adminLoop (Split (fs.file.getD []))
        { logs := [], blockCount := 0, allowCount := 0, keywordMap := [] } = some st ∧
      handleAdmin fs = some { Logs := st.logs, Total := st.blockCount + st.allowCount,
                              Block := st.blockCount, Allow := st.allowCount,
                              Ranking := st.keywordMap } := by
  obtain ⟨st, hst⟩ := adminLoop_total (Split (fs.file.getD []))
    { logs := [], blockCount := 0, allowCount := 0, keywordMap := [] }
  exact ⟨st, hst, by simp [handleAdmin, hst]⟩

theorem adminLoop_skip (line : List Nat) (st : LoopState) (h : skipped line = true) :
    adminLoop [line] st = some st := by
  simp [adminLoop, h]

theorem skipped_nil : skipped [] = true := by decide

/-- Reading a log that is empty or ends in a line feed, followed by more text: the loop runs over
the lines of the log and then over the lines of the rest. -/
theorem adminLoop_Split_append (content more : List Nat) (st : LoopState)
    (hterm : content = [] ∨ utf8 "\n" <:+ content) :
    adminLoop (Split (content ++ more)) st =
      (adminLoop (Split content) st).bind (adminLoop (Split more)) := by
  rcases hterm with rfl | ⟨x, rfl⟩
  · simp [Split, adminLoop, skipped_nil]
  · have e : utf8 "\n" = [10] := by decide
    rw [e, List.append_assoc, List.singleton_append, Split_append_lf, adminLoop_append]
    have e2 : Split (x ++ [10]) = Split x ++ [[]] := by
      rw [Split_append_lf]; simp [Split]
    rw [e2, adminLoop_append]
    cases adminLoop (Split x) st with
    | none => rfl
    | some st1 => simp [adminLoop, skipped_nil]

theorem not_lf_infix_iff (l : List Nat) : ¬ utf8 "\n" <:+: l ↔ 10 ∉ l := by
  have e : utf8 "\n" = [10] := by decide
  rw [e]
  constructor
  · intro h hm
    obtain ⟨x, y, rfl⟩ := List.append_of_mem hm
    exact h ⟨x, y, by simp⟩
  · rintro h ⟨x, y, rfl⟩
    exact h (by simp)

theorem handleAdmin_congr (fs1 fs2 : FS)
    (h : adminLoop (Split (fs1.file.getD []))
          { logs := [], blockCount := 0, allowCount := 0, keywordMap := [] } =
        adminLoop (Split (fs2.file.getD []))
          { logs := [], blockCount := 0, allowCount := 0, keywordMap := [] }) :
    handleAdmin fs1 = handleAdmin fs2 := by
  simp [handleAdmin, h]

/-- C6: appending a line without `]` (with or without its line feed) to a log that is empty or
ends in a line feed changes nothing in the result of `handleAdmin`: records, totals and ranking
are those of the log before. -/
theorem C6_line_without_bracket_changes_nothing (content line : List Nat) (c : Bool)
    (hterm : content = [] ∨ utf8 "\n" <:+ content)
    (hline : ¬ utf8 "\n" <:+: line) (hbr : ¬ utf8 "]" <:+: line) :
    handleAdmin { file := some (content ++ line), canOpen := c } =
      handleAdmin { file := some content, canOpen := c } ∧
    handleAdmin { file := some (content ++ line ++ utf8 "\n"), canOpen := c } =
      handleAdmin { file := some content, canOpen := c } := by
  have hs : skipped line = true := by
    simp [skipped, (Contains_eq_false_iff line (utf8 "]")).2 hbr]
  have hline : 10 ∉ line := (not_lf_infix_iff line).1 hline
  have e : utf8 "\n" = [10] := by decide
  constructor
  · apply handleAdmin_congr
    simp only [Option.getD_some]
    rw [adminLoop_Split_append content line _ hterm, Split_of_no_lf line hline]
    cases adminLoop (Split content) _ with
    | none => rfl
    | some st1 => simp [adminLoop_skip line st1 hs]
  · apply handleAdmin_congr
    simp only [Option.getD_some]
    rw [List.append_assoc, adminLoop_Split_append content _ _ hterm, e, Split_append_lf,
      Split_of_no_lf line hline]
    cases adminLoop (Split content) _ with
    | none => rfl
    | some st1 => simp [adminLoop, hs, Split, skipped_nil]

/-- C6 at a log holding one ALLOW record and the truncated line `[2026-11-04 09:0`. -/
theorem C6_witness :
    (utf8 "[2026-11-04 09:07:00] [ALLOW] 内容: hello\n" = [] ∨
      utf8 "\n" <:+ utf8 "[2026-11-04 09:07:00] [ALLOW] 内容: hello\n") ∧
    ¬ utf8 "\n" <:+: utf8 "[2026-11-04 09:0" ∧ ¬ utf8 "]" <:+: utf8 "[2026-11-04 09:0" ∧
    (handleAdmin ⟨some (utf8 "[2026-11-04 09:07:00] [ALLOW] 内容: hello\n" ++
          utf8 "[2026-11-04 09:0"), true⟩ =
      handleAdmin ⟨some (utf8 "[2026-11-04 09:07:00] [ALLOW] 内容: hello\n"), true⟩ ∧
    handleAdmin ⟨some (utf8 "[2026-11-04 09:07:00] [ALLOW] 内容: hello\n" ++
          utf8 "[2026-11-04 09:0" ++ utf8 "\n"), true⟩ =
      handleAdmin ⟨some (utf8 "[2026-11-04 09:07:00] [ALLOW] 内容: hello\n"), true⟩) :=
  ⟨by decide, by decide, by decide,
   C6_line_without_bracket_changes_nothing (utf8 "[2026-11-04 09:07:00] [ALLOW] 内容: hello\n")
     (utf8 "[2026-11-04 09:0") true (by decide) (by decide) (by decide)⟩

/-- C7: with the log file missing, or present and empty, `handleAdmin` returns normally with no
records, `Total = Block = Allow = 0` and an empty ranking. -/
theorem C7_missing_or_empty_log_gives_empty_summary (c : Bool) :
    handleAdmin { file := none, canOpen := c } =
      some { Logs := [], Total := 0, Block := 0, Allow := 0, Ranking := [] } ∧
    handleAdmin { file := some [], canOpen := c } =
      some { Logs := [], Total := 0, Block := 0, Allow := 0, Ranking := [] } := by
  cases c <;> exact ⟨by decide, by decide⟩

theorem clear_iff (msg : List Nat) :
    Clear msg ↔ forbiddenLoop msg forbiddenWords = none ∧ MatchString emailPattern msg = false ∧
      MatchString googleKeyPattern msg = false ∧ MatchString awsKeyPattern msg = false ∧
      MatchString codePattern msg = false := by
  simp only [Clear, forbiddenLoop_none, not_hasMatch_iff]

theorem infix_askGeminiMock (msg : List Nat) : msg <:+: askGeminiMock msg :=
  ⟨utf8 "【AI】(模擬応答)\n確認しました。「", utf8 "」ですね。\nこの内容はポリシーに準拠しています。", rfl⟩

theorem writeAuditLog_file (fs : FS) (now status message : List Nat) (h : fs.canOpen = true) :
    (writeAuditLog fs now status message).file =
      some (fs.file.getD [] ++ auditLine now status message) := by
  simp [writeAuditLog, h]

theorem googleKeyPattern_Lang (u : List Nat) : googleKeyPattern.Lang u ↔ IsGoogleKey u := by
  have hc : ∀ b, inClass [chr '0' '9', chr 'A' 'Z', chr 'a' 'z', chr '-' '-', chr '_' '_'] b = true ↔
      (isDigit b ∨ isUpper b ∨ isLower b ∨ b = '_'.toNat ∨ b = '-'.toNat) := by
    intro b
    simp [inClass, chr, isLower, isUpper, isDigit]
    omega
  simp only [googleKeyPattern, Regex.Lang, IsGoogleKey, hc]
  constructor
  · rintro ⟨v, key, rfl, rfl, hl, hk⟩; exact ⟨key, rfl, hl, hk⟩
  · rintro ⟨key, rfl, hl, hk⟩; exact ⟨_, key, rfl, rfl, hl, hk⟩

theorem awsKeyPattern_Lang (u : List Nat) : awsKeyPattern.Lang u ↔ IsAwsKey u := by
  have hc : ∀ b, inClass [chr '0' '9', chr 'A' 'Z'] b = true ↔ (isDigit b ∨ isUpper b) := by
    intro b
    simp [inClass, chr, isUpper, isDigit]
  simp only [awsKeyPattern, Regex.Lang, IsAwsKey, hc]
  constructor
  · rintro ⟨v, key, rfl, rfl, hl, hk⟩; exact ⟨key, rfl, hl, hk⟩
  · rintro ⟨key, rfl, hl, hk⟩; exact ⟨_, key, rfl, rfl, hl, hk⟩

theorem apiKey_match_iff (msg : List Nat) :
    (MatchString googleKeyPattern msg || MatchString awsKeyPattern msg) = true ↔
      ∃ pre u post, msg = pre ++ u ++ post ∧ (IsGoogleKey u ∨ IsAwsKey u) := by
  simp only [Bool.or_eq_true, MatchString_iff, googleKeyPattern_Lang, awsKeyPattern_Lang]
  constructor
  · rintro (⟨pre, u, post, hs, hu⟩ | ⟨pre, u, post, hs, hu⟩)
    · exact ⟨pre, u, post, hs, Or.inl hu⟩
    · exact ⟨pre, u, post, hs, Or.inr hu⟩
  · rintro ⟨pre, u, post, hs, hu | hu⟩
    · exact Or.inl ⟨pre, u, post, hs, hu⟩
    · exact Or.inr ⟨pre, u, post, hs, hu⟩

/-- C10: for a message with no forbidden term and no email match, `handleChat` rejects with the
reason `検知: APIキー流出` exactly when the message contains `AIza` followed by 35 characters of
`[0-9A-Za-z_-]` or `AKIA` followed by 16 characters of `[0-9A-Z]`. -/
theorem C10_api_key_rejected_iff_key_shape (fs : FS) (now msg : List Nat)
    (hno : ∀ w ∈ forbiddenWords, ¬ w <:+: msg) (hmail : ¬ HasMatch emailPattern msg) :
    ((handleChat fs now (chatRequest msg)).2 = rejection (utf8 "検知: APIキー流出") ↔
      ∃ pre u post, msg = pre ++ u ++ post ∧ (IsGoogleKey u ∨ IsAwsKey u)) ∧
    ((∃ pre u post, msg = pre ++ u ++ post ∧ (IsGoogleKey u ∨ IsAwsKey u)) →
      handleChat fs now (chatRequest msg) = blockWithLog fs now msg (utf8 "検知: APIキー流出") ∧
      (handleChat fs now (chatRequest msg)).2.status = 403) := by
  have h0 := (forbiddenLoop_none msg forbiddenWords).2 hno
  have h1 := (not_hasMatch_iff _ _).1 hmail
  rw [← apiKey_match_iff, handleChat_clean fs now msg h0]
  by_cases h2 : (MatchString googleKeyPattern msg || MatchString awsKeyPattern msg) = true
  · simp only [h1, h2]
    simp [blockWithLog, rejection]
  · by_cases h3 : MatchString codePattern msg = true
    · simp only [h1, h2, h3]
      simp only [Bool.false_eq_true, if_false, if_true, blockWithLog, rejection, Response.mk.injEq,
        List.append_cancel_left_eq, true_and, iff_false, false_implies, and_true]
      decide
    · simp only [h1, h2, h3]
      simp [rejection]

/-- C10 at the message `"AKIA1234567890123456"`: rejected as a credential leak. -/
theorem C10_witness :
    (∀ w ∈ forbiddenWords, ¬ w <:+: utf8 "AKIA1234567890123456") ∧
    ¬ HasMatch emailPattern (utf8 "AKIA1234567890123456") ∧
    (∃ pre u post, utf8 "AKIA1234567890123456" = pre ++ u ++ post ∧
      (IsGoogleKey u ∨ IsAwsKey u)) ∧
    (handleChat ⟨some [], true⟩ (utf8 "2026-11-04 09:07:00")
      (chatRequest (utf8 "AKIA1234567890123456"))).2 = rejection (utf8 "検知: APIキー流出") :=
  have hno : ∀ w ∈ forbiddenWords, ¬ w <:+: utf8 "AKIA1234567890123456" := by decide
  have hmail : ¬ HasMatch emailPattern (utf8 "AKIA1234567890123456") :=
    (not_hasMatch_iff _ _).2 (by decide)
  have hkey : ∃ pre u post, utf8 "AKIA1234567890123456" = pre ++ u ++ post ∧
      (IsGoogleKey u ∨ IsAwsKey u) :=
    ⟨[], utf8 "AKIA1234567890123456", [], by decide,
      Or.inr ⟨utf8 "1234567890123456", by decide, by decide, by decide⟩⟩
  ⟨hno, hmail, hkey,
   (C10_api_key_rejected_iff_key_shape ⟨some [], true⟩ (utf8 "2026-11-04 09:07:00")
      (utf8 "AKIA1234567890123456") hno hmail).1.2 hkey⟩

/-! ## Writing a record and reading it back -/

theorem auditLine_eq (now status m : List Nat) :
    auditLine now status m = recordText now status m ++ utf8 "\n" := rfl

theorem isTimestamp_no_lf (now : List Nat) (h : isTimestamp now) : 10 ∉ now := by
  intro hm
  have e : utf8 "-: " = [45, 58, 32] := by decide
  have := h.2 10 hm
  rw [e] at this
  simp [isDigit] at this

theorem recordText_no_lf (now status m : List Nat) (h1 : 10 ∉ now) (h2 : 10 ∉ status)
    (h3 : 10 ∉ m) : 10 ∉ recordText now status m := by
  have e1 : 10 ∉ utf8 "[" := by decide
  have e2 : 10 ∉ utf8 "] [" := by decide
  have e3 : 10 ∉ utf8 "] 内容: " := by decide
  simp only [recordText, List.mem_append, not_or]
  exact ⟨⟨⟨⟨⟨e1, h1⟩, e2⟩, h2⟩, e3⟩, h3⟩

theorem recordText_not_skipped (now status m : List Nat) :
    skipped (recordText now status m) = false := by
  have e : utf8 "] [" = utf8 "]" ++ utf8 " [" := by decide
  have hin : utf8 "]" <:+: recordText now status m :=
    ⟨utf8 "[" ++ now, utf8 " [" ++ status ++ utf8 "] 内容: " ++ m, by
      simp only [recordText, e, List.append_assoc]⟩
  have hne : recordText now status m ≠ [] := by
    intro h
    have := congrArg List.length h
    have e1 : (utf8 "[").length = 1 := by decide
    simp only [recordText, List.length_append, e1, List.length_nil] at this
    omega
  simp [skipped, hne, (Contains_iff _ _).2 hin]

/-- After a successful write onto a terminated log, the reader's loop ends in the state reached
on the old log, advanced by the loop body on the new line. -/
theorem adminLoop_after_write (fs : FS) (now status m : List Nat) (st0 : LoopState)
    (hopen : fs.canOpen = true) (hterm : Terminated (fs.file.getD []))
    (h1 : 10 ∉ now) (h2 : 10 ∉ status) (h3 : 10 ∉ m) :
    adminLoop (Split ((writeAuditLog fs now status m).file.getD [])) st0 =
      (adminLoop (Split (fs.file.getD [])) st0).bind
        (fun st => processLine st (recordText now status m)) := by
  have e : utf8 "\n" = [10] := by decide
  rw [writeAuditLog_file fs now status m hopen, Option.getD_some, auditLine_eq,
    adminLoop_Split_append _ _ _ hterm, e, Split_append_lf,
    Split_of_no_lf _ (recordText_no_lf now status m h1 h2 h3)]
  cases adminLoop (Split (fs.file.getD [])) st0 with
  | none => rfl
  | some st =>
    simp only [Option.some_bind, List.singleton_append, adminLoop, recordText_not_skipped,
      Bool.false_eq_true, if_false]
    cases processLine st (recordText now status m) with
    | none => rfl
    | some st1 => simp [Split, adminLoop, skipped_nil]

theorem forbiddenWords_no_lf : ∀ w ∈ forbiddenWords, 10 ∉ w := by decide

/-- Every inspection ends in one call of `writeAuditLog`, whose text has a line feed only if
the message has one. -/
theorem handleChat_fst (fs : FS) (now msg : List Nat) :
    ∃ status m, (status = utf8 "BLOCK" ∨ status = utf8 "ALLOW") ∧ (10 ∉ msg → 10 ∉ m) ∧
      (handleChat fs now (chatRequest msg)).1 = writeAuditLog fs now status m := by
  have blk : ∀ reason, 10 ∉ reason →
      ∃ status m, (status = utf8 "BLOCK" ∨ status = utf8 "ALLOW") ∧ (10 ∉ msg → 10 ∉ m) ∧
        (blockWithLog fs now msg reason).1 = writeAuditLog fs now status m := by
    intro reason hr
    refine ⟨utf8 "BLOCK", msg ++ utf8 " (" ++ reason ++ utf8 ")", Or.inl rfl, ?_, rfl⟩
    intro hm
    have e1 : 10 ∉ utf8 " (" := by decide
    have e2 : 10 ∉ utf8 ")" := by decide
    simp only [List.mem_append, not_or]
    exact ⟨⟨⟨hm, e1⟩, hr⟩, e2⟩
  cases h0 : forbiddenLoop msg forbiddenWords with
  | some w =>
    rw [handleChat_forbidden fs now msg w h0]
    apply blk
    obtain ⟨pre, post, hws, -, -⟩ := forbiddenLoop_some _ _ _ h0
    have hw : w ∈ forbiddenWords := by rw [hws]; simp
    have e : 10 ∉ utf8 "禁止用語: " := by decide
    simp only [List.mem_append, not_or]
    exact ⟨e, forbiddenWords_no_lf w hw⟩
  | none =>
    rw [handleChat_clean fs now msg h0]
    by_cases h1 : MatchString emailPattern msg = true
    · simp only [h1, if_true]; exact blk _ (by decide)
    · by_cases h2 : (MatchString googleKeyPattern msg || MatchString awsKeyPattern msg) = true
      · simp only [h1, h2, if_true, Bool.false_eq_true, if_false]; exact blk _ (by decide)
      · by_cases h3 : MatchString codePattern msg = true
        · simp only [h1, h2, h3, if_true, Bool.false_eq_true, if_false]; exact blk _ (by decide)
        · simp only [h1, h2, h3, Bool.false_eq_true, if_false]
          exact ⟨utf8 "ALLOW", msg, Or.inr rfl, id, rfl⟩

/-- C8 (as amended): when the log can be opened for append, is empty or ends in a line feed, and
neither the formatted time nor the message holds a line feed, one inspection adds exactly one
record to what `handleAdmin` parses, and `Total` grows by exactly one. -/
theorem C8_one_record_per_inspection_without_line_break (fs : FS) (now msg : List Nat)
    (hopen : fs.canOpen = true) (hterm : Terminated (fs.file.getD []))
    (hnow : isTimestamp now) (hmsg : ¬ utf8 "\n" <:+: msg) :
    ∃ d d1, handleAdmin fs = some d ∧
      handleAdmin (handleChat fs now (chatRequest msg)).1 = some d1 ∧
      d1.Logs.length = d.Logs.length + 1 ∧ d1.Total = d.Total + 1 := by
  obtain ⟨status, m, hst, hm, hw⟩ := handleChat_fst fs now msg
  have h3 : 10 ∉ m := hm ((not_lf_infix_iff msg).1 hmsg)
  have h2 : 10 ∉ status := by rcases hst with rfl | rfl <;> decide
  obtain ⟨st, hst0, hd⟩ := handleAdmin_eq fs
  obtain ⟨st1, hst1, hd1⟩ := handleAdmin_eq (handleChat fs now (chatRequest msg)).1
  rw [hw, adminLoop_after_write fs now status m _ hopen hterm (isTimestamp_no_lf now hnow) h2 h3,
    hst0, Option.some_bind] at hst1
  obtain ⟨key, t, mm, -, -, -, hp⟩ := processLine_total st (recordText now status m)
  rw [hp, Option.some.injEq] at hst1
  refine ⟨_, _, hd, hd1, ?_, ?_⟩
  · subst hst1
    by_cases hb : Contains (recordText now status m) (utf8 "[BLOCK]") = true <;> simp [hb]
  · subst hst1
    by_cases hb : Contains (recordText now status m) (utf8 "[BLOCK]") = true
    · simp only [hb, if_true]; omega
    · simp only [hb, Bool.false_eq_true, if_false]; omega

/-- C8 at an empty log and the message `"hello"`. -/
theorem C8_witness :
    Terminated ((⟨some [], true⟩ : FS).file.getD []) ∧ isTimestamp (utf8 "2026-11-04 09:07:00") ∧
    ¬ utf8 "\n" <:+: utf8 "hello" ∧
    ∃ d d1, handleAdmin ⟨some [], true⟩ = some d ∧
      handleAdmin (handleChat ⟨some [], true⟩ (utf8 "2026-11-04 09:07:00")
        (chatRequest (utf8 "hello"))).1 = some d1 ∧
      d1.Logs.length = d.Logs.length + 1 ∧ d1.Total = d.Total + 1 :=
  have hterm : Terminated ((⟨some [], true⟩ : FS).file.getD []) := Or.inl rfl
  have hnow : isTimestamp (utf8 "2026-11-04 09:07:00") := ⟨by decide, by decide⟩
  ⟨hterm, hnow, by decide,
   C8_one_record_per_inspection_without_line_break ⟨some [], true⟩ (utf8 "2026-11-04 09:07:00")
     (utf8 "hello") rfl hterm hnow (by decide)⟩

/-- C8 fails as stated: a message with a line break followed by `]` yields two records, and
when the log cannot be opened the inspection yields none. -/
theorem C8_counterexample :
    (handleAdmin ⟨some [], true⟩).map (fun d => (d.Logs.length, d.Total)) = some (0, 0) ∧
    (handleAdmin (handleChat ⟨some [], true⟩ (utf8 "2026-11-04 09:07:00")
        (chatRequest (utf8 "see list:\n[1] apples"))).1).map
      (fun d => (d.Logs.length, d.Total)) = some (2, 2) ∧
    (handleAdmin (handleChat ⟨some [], false⟩ (utf8 "2026-11-04 09:07:00")
        (chatRequest (utf8 "hello"))).1).map
      (fun d => (d.Logs.length, d.Total)) = some (0, 0) := by
  refine ⟨by decide, by decide, by decide⟩

theorem slice_middle (a b c : List Nat) :
    slice (a ++ b ++ c) (a.length : Int) ((a.length : Int) + b.length) = some b := by
  rw [slice_some _ _ _ (by simp only [List.length_append]; push_cast; omega)]
  have h1 : ((a.length : Int) + (b.length : Int)).toNat = (a ++ b).length := by
    simp only [List.length_append]; omega
  have h2 : ((a.length : Int)).toNat = a.length := by omega
  rw [h1, h2, List.take_left, List.drop_left]

/-- An instance of `p0 :: ps` inside `x ++ y` lies inside `y` when `p0` does not occur in `x`. -/
theorem infix_of_head_not_mem (p0 : Nat) (ps x y : List Nat) (hx : p0 ∉ x)
    (h : (p0 :: ps) <:+: x ++ y) : (p0 :: ps) <:+: y := by
  induction x with
  | nil => simpa using h
  | cons a x ih =>
    simp only [List.mem_cons, not_or] at hx
    rw [List.cons_append, List.infix_cons_iff] at h
    rcases h with h | h
    · rw [List.cons_prefix_cons] at h
      exact absurd h.1 hx.1
    · exact ih hx.2 h

/-- An instance of `pat` inside `x ++ y` lies inside `y` when `pat` cannot start anywhere in
`x`: at every offset of `x` the bytes of `x` from there on disagree with `pat`. -/
theorem infix_of_no_start (pat x y : List Nat)
    (hx : ∀ k < x.length, ¬ (x.drop k).take pat.length <+: pat)
    (h : pat <:+: x ++ y) : pat <:+: y := by
  induction x with
  | nil => simpa using h
  | cons a x ih =>
    rw [List.cons_append, List.infix_cons_iff] at h
    rcases h with h | h
    · exfalso
      apply hx 0 (by simp)
      rw [List.drop_zero]
      rw [← List.cons_append] at h
      rcases List.prefix_or_prefix_of_prefix h (List.prefix_append (a :: x) y) with h1 | h1
      · rw [List.prefix_iff_eq_take] at h1
        rw [← h1]
      · rw [List.take_of_length_le h1.length_le]
        exact h1
    · apply ih _ h
      intro k hk
      have := hx (k + 1) (by simp; omega)
      simpa using this

theorem isTimestamp_bytes (now : List Nat) (h : isTimestamp now) :
    ∀ b ∈ now, b ≠ 91 ∧ b ≠ 66 := by
  intro b hb
  have e : utf8 "-: " = [45, 58, 32] := by decide
  have := h.2 b hb
  rw [e] at this
  simp [isDigit] at this
  omega

/-- A BLOCK line is recognised as one. -/
theorem recordText_block_contains (now m : List Nat) :
    Contains (recordText now (utf8 "BLOCK") m) (utf8 "[BLOCK]") = true := by
  rw [Contains_iff]
  have e : utf8 "] [" ++ utf8 "BLOCK" ++ utf8 "] 内容: " =
      utf8 "] " ++ utf8 "[BLOCK]" ++ utf8 " 内容: " := by decide
  refine ⟨utf8 "[" ++ now ++ utf8 "] ", utf8 " 内容: " ++ m, ?_⟩
  have : recordText now (utf8 "BLOCK") m =
      utf8 "[" ++ now ++ (utf8 "] [" ++ utf8 "BLOCK" ++ utf8 "] 内容: ") ++ m := by
    simp only [recordText, List.append_assoc]
  rw [this, e]
  simp only [List.append_assoc]

/-- An ALLOW line is taken for a BLOCK line only when the message itself holds `[BLOCK]`. -/
theorem recordText_allow_contains (now m : List Nat) (hnow : isTimestamp now)
    (hm : ¬ utf8 "[BLOCK]" <:+: m) :
    Contains (recordText now (utf8 "ALLOW") m) (utf8 "[BLOCK]") = false := by
  rw [Contains_eq_false_iff]
  intro h
  apply hm
  have hb := isTimestamp_bytes now hnow
  have e1 : utf8 "[BLOCK]" = 91 :: utf8 "BLOCK]" := by decide
  have e2 : utf8 "BLOCK]" = 66 :: utf8 "LOCK]" := by decide
  have e3 : utf8 "[" = [91] := by decide
  have e4 : utf8 "] [" ++ utf8 "ALLOW" ++ utf8 "] 内容: " = 93 :: utf8 " [ALLOW] 内容: " := by decide
  have hrt : recordText now (utf8 "ALLOW") m =
      91 :: (now ++ (93 :: utf8 " [ALLOW] 内容: " ++ m)) := by
    have : recordText now (utf8 "ALLOW") m =
        utf8 "[" ++ (now ++ ((utf8 "] [" ++ utf8 "ALLOW" ++ utf8 "] 内容: ") ++ m)) := by
      simp only [recordText, List.append_assoc]
    rw [this, e3, e4]; rfl
  rw [hrt, List.infix_cons_iff] at h
  have h2 : utf8 "[BLOCK]" <:+: now ++ (93 :: utf8 " [ALLOW] 内容: " ++ m) := by
    rcases h with h | h
    · exfalso
      rw [e1, List.cons_prefix_cons, e2] at h
      have h1 := h.2
      cases now with
      | nil =>
        rw [List.nil_append, List.cons_append, List.cons_prefix_cons] at h1
        exact absurd h1.1 (by decide)
      | cons b now =>
        rw [List.cons_append, List.cons_prefix_cons] at h1
        exact (hb b (List.mem_cons_self _ _)).2 h1.1.symm
    · exact h
  rw [e1] at h2 ⊢
  have h3 := infix_of_head_not_mem 91 _ now _ (fun hmem => (hb 91 hmem).1 rfl) h2
  rw [← e1] at h3 ⊢
  exact infix_of_no_start (utf8 "[BLOCK]") (93 :: utf8 " [ALLOW] 内容: ") m (by decide) h3

/-- The ranking key read from a BLOCK line is the reason that was written, with the first
instance of each label removed, whenever the reason holds no `(`. -/
theorem blockKey_recordText (now message reason : List Nat) (hr : ¬ utf8 "(" <:+: reason) :
    blockKey (recordText now (utf8 "BLOCK") (message ++ utf8 " (" ++ reason ++ utf8 ")")) =
      some (Replace (utf8 "禁止用語: ") (Replace (utf8 "検知: ") reason)) := by
  have e1 : utf8 " (" = utf8 " " ++ utf8 "(" := by decide
  have eo : utf8 "(" = [40] := by decide
  have ec : utf8 ")" = [41] := by decide
  have hline : recordText now (utf8 "BLOCK") (message ++ utf8 " (" ++ reason ++ utf8 ")") =
      (utf8 "[" ++ now ++ utf8 "] [" ++ utf8 "BLOCK" ++ utf8 "] 内容: " ++ message ++ utf8 " ") ++
        (utf8 "(" ++ (reason ++ utf8 ")")) := by
    simp only [recordText, e1, List.append_assoc]
  generalize hX : utf8 "[" ++ now ++ utf8 "] [" ++ utf8 "BLOCK" ++ utf8 "] 内容: " ++ message ++
    utf8 " " = X at hline
  have h40 : 40 ∉ reason := by
    intro hm
    obtain ⟨x, y, rfl⟩ := List.append_of_mem hm
    exact hr ⟨x, y, by rw [eo]; simp⟩
  have hstart : LastIndex (X ++ (utf8 "(" ++ (reason ++ utf8 ")"))) (utf8 "(") = X.length := by
    apply LastIndex_append
    · rw [eo]; simp
    · rw [eo, ec]
      rintro ⟨x, y, hxy⟩
      have : 40 ∈ reason ++ [41] := by
        have h1 : (([40] : List Nat) ++ (reason ++ [41])).tail = reason ++ [41] := rfl
        rw [h1] at hxy
        rw [← hxy]; simp
      rcases List.mem_append.1 this with h | h
      · exact h40 h
      · simp at h
  have hstop : LastIndex (X ++ (utf8 "(" ++ (reason ++ utf8 ")"))) (utf8 ")") =
      ((X ++ utf8 "(" ++ reason).length : Nat) := by
    have : X ++ (utf8 "(" ++ (reason ++ utf8 ")")) = (X ++ utf8 "(" ++ reason) ++ (utf8 ")" ++ []) := by
      simp only [List.append_assoc, List.append_nil]
    rw [this]
    apply LastIndex_append
    · rw [ec]; simp
    · rw [ec]; simp
  have hsl : slice (X ++ (utf8 "(" ++ (reason ++ utf8 ")")))
      ((X.length : Int) + 1) (((X ++ utf8 "(" ++ reason).length : Nat) : Int) = some reason := by
    have h1 : X ++ (utf8 "(" ++ (reason ++ utf8 ")")) = (X ++ utf8 "(") ++ reason ++ utf8 ")" := by
      simp only [List.append_assoc]
    have h2 : ((X.length : Int) + 1) = ((X ++ utf8 "(").length : Int) := by
      rw [eo]; simp
    have h3 : (((X ++ utf8 "(" ++ reason).length : Nat) : Int) =
        ((X ++ utf8 "(").length : Int) + reason.length := by
      simp only [List.length_append]; push_cast; ring
    rw [h1, h2, h3, slice_middle]
  rw [hline]
  unfold blockKey
  simp only [hstart, hstop, hsl]
  have hcond : (X.length : Int) ≠ -1 ∧ (((X ++ utf8 "(" ++ reason).length : Nat) : Int) ≠ -1 ∧
      (((X ++ utf8 "(" ++ reason).length : Nat) : Int) > (X.length : Int) := by
    rw [eo]
    simp only [List.length_append, List.length_singleton]
    push_cast
    omega
  rw [if_pos hcond]
  rfl

/-- C4 fails as stated: after `blockWithLog` writes the reason `禁止用語: password` the record
read back has Status `BLOCK`, but the key counted in the ranking is `password`; the reason as
written is not a key of the ranking. -/
theorem C4_counterexample :
    (handleAdmin (blockWithLog ⟨some [], true⟩ (utf8 "2026-11-04 09:07:00")
        (utf8 "my password is 1234") (utf8 "禁止用語: password")).1).map
      (fun d => (d.Logs.map (fun e => e.Status), d.Ranking,
        count d.Ranking (utf8 "禁止用語: password"))) =
      some ([utf8 "BLOCK"], [(utf8 "password", 1)], 0) := by
  decide
theorem inClass_whitespace (b : Nat) : inClass whitespace b = true ↔ isSpace b := by
  simp [inClass, whitespace, isSpace]
  omega

theorem codePattern_Lang (u : List Nat) :
    codePattern.Lang u ↔
      ∃ kw ws, u = kw ++ ws ∧ kw ∈ codeKeywords ∧ 1 ≤ ws.length ∧ ∀ b ∈ ws, isSpace b := by
  simp only [codePattern, Regex.Lang, inClass_whitespace, codeKeywords, List.mem_cons,
    List.mem_singleton, List.not_mem_nil, or_false]

theorem codePattern_match_iff (msg : List Nat) :
    MatchString codePattern msg = true ↔ HasCodeKeyword msg := by
  simp only [MatchString_iff, codePattern_Lang, HasCodeKeyword]
  constructor
  · rintro ⟨pre, u, post, rfl, kw, ws, rfl, hkw, hl, hws⟩
    cases ws with
    | nil => simp at hl
    | cons b ws =>
      exact ⟨pre, kw, b, ws ++ post, by simp, hkw, hws b (List.mem_cons_self _ _)⟩
  · rintro ⟨pre, kw, b, post, rfl, hkw, hb⟩
    refine ⟨pre, kw ++ [b], post, by simp, kw, [b], rfl, hkw, by simp, ?_⟩
    intro c hc
    rw [List.mem_singleton] at hc
    subst hc; exact hb

/-- C11: for a message that passes the forbidden-term, email and API-key checks, `handleChat`
rejects with the reason `検知: ソースコード送信` exactly when the message contains one of the
keywords func, class, import, package, def, public, private immediately followed by a
whitespace character (tab, line feed, form feed, carriage return or space), wherever the
keyword starts. -/
theorem C11_source_code_rejected_iff_keyword_then_space (fs : FS) (now msg : List Nat)
    (hno : ∀ w ∈ forbiddenWords, ¬ w <:+: msg) (hmail : ¬ HasMatch emailPattern msg)
    (hkey : ¬ HasMatch googleKeyPattern msg ∧ ¬ HasMatch awsKeyPattern msg) :
    ((handleChat fs now (chatRequest msg)).2 = rejection (utf8 "検知: ソースコード送信") ↔
      HasCodeKeyword msg) ∧
    (HasCodeKeyword msg →
      handleChat fs now (chatRequest msg) =
        blockWithLog fs now msg (utf8 "検知: ソースコード送信") ∧
      (handleChat fs now (chatRequest msg)).2.status = 403) := by
  have h0 := (forbiddenLoop_none msg forbiddenWords).2 hno
  have h1 := (not_hasMatch_iff _ _).1 hmail
  have h2 := (not_hasMatch_iff _ _).1 hkey.1
  have h3 := (not_hasMatch_iff _ _).1 hkey.2
  rw [← codePattern_match_iff, handleChat_clean fs now msg h0]
  by_cases h4 : MatchString codePattern msg = true
  · simp only [h1, h2, h3, h4]
    simp [blockWithLog, rejection]
  · simp only [h1, h2, h3, h4]
    simp [rejection]

/-- C11 at the message `"func main() {}"`: the keyword `func` is followed by a space, and the
message is rejected as source code. -/
theorem C11_witness :
    (∀ w ∈ forbiddenWords, ¬ w <:+: utf8 "func main() {}") ∧
    ¬ HasMatch emailPattern (utf8 "func main() {}") ∧
    (¬ HasMatch googleKeyPattern (utf8 "func main() {}") ∧
      ¬ HasMatch awsKeyPattern (utf8 "func main() {}")) ∧
    HasCodeKeyword (utf8 "func main() {}") ∧
    (handleChat ⟨some [], true⟩ (utf8 "2026-11-04 09:07:00")
      (chatRequest (utf8 "func main() {}"))).2 = rejection (utf8 "検知: ソースコード送信") :=
  have hno : ∀ w ∈ forbiddenWords, ¬ w <:+: utf8 "func main() {}" := by decide
  have hmail : ¬ HasMatch emailPattern (utf8 "func main() {}") :=
    (not_hasMatch_iff _ _).2 (by decide)
  have hkey : ¬ HasMatch googleKeyPattern (utf8 "func main() {}") ∧
      ¬ HasMatch awsKeyPattern (utf8 "func main() {}") :=
    ⟨(not_hasMatch_iff _ _).2 (by decide), (not_hasMatch_iff _ _).2 (by decide)⟩
  have hcode : HasCodeKeyword (utf8 "func main() {}") :=
    ⟨[], utf8 "func", 32, utf8 "main() {}", by decide, by decide, by decide⟩
  ⟨hno, hmail, hkey, hcode,
   (C11_source_code_rejected_iff_keyword_then_space ⟨some [], true⟩ (utf8 "2026-11-04 09:07:00")
      (utf8 "func main() {}") hno hmail hkey).1.2 hcode⟩
/-! ## The fields of a parsed record -/

/-- On a line that holds the content label, `messagePart` is the text after the last label
preceded by the label's own final space: the slice starts one byte early. -/
theorem messagePart_label (x y : List Nat)
    (h : ¬ utf8 "内容: " <:+: (utf8 "内容: " ++ y).tail) :
    messagePart (x ++ (utf8 "内容: " ++ y)) = some (utf8 " " ++ y) := by
  have hne : utf8 "内容: " ≠ [] := by decide
  have hidx := LastIndex_append (utf8 "内容: ") x y hne h
  have e : utf8 "内容: " = utf8 "内容:" ++ utf8 " " := by decide
  have e7 : (utf8 "内容:").length = 7 := by decide
  unfold messagePart
  simp only [hidx]
  have hcond : (x.length : Int) ≠ -1 := by omega
  rw [if_pos hcond]
  have hs : x ++ (utf8 "内容: " ++ y) = (x ++ utf8 "内容:") ++ (utf8 " " ++ y) ++ [] := by
    rw [e]; simp only [List.append_assoc, List.append_nil]
  have h1 : ((x.length : Int) + 7) = ((x ++ utf8 "内容:").length : Int) := by
    simp only [List.length_append, e7]; push_cast; ring
  have h2 : (((x ++ (utf8 "内容: " ++ y)).length : Nat) : Int) =
      ((x ++ utf8 "内容:").length : Int) + ((utf8 " " ++ y).length : Int) := by
    rw [e]; simp only [List.length_append]; push_cast; ring
  rw [h2, h1, hs, slice_middle]

/-- On a line without the content label, `messagePart` is empty. -/
theorem messagePart_absent (line : List Nat) (h : ¬ utf8 "内容: " <:+: line) :
    messagePart line = some [] := by
  unfold messagePart
  simp only [LastIndex, lastIndexFrom_absent _ _ 0 h]
  simp

/-- C12 at the line `handleChat` writes for the message `hello`: the Message read back is
` hello`, with the space of the label in front, not `hello`. -/
theorem C12_message_starts_with_the_space_of_the_label :
    (handleChat ⟨none, true⟩ (utf8 "2026-11-04 09:07:00") (chatRequest (utf8 "hello"))).1.file =
      some (utf8 "[2026-11-04 09:07:00] [ALLOW] 内容: hello\n") ∧
    (handleAdmin ⟨some (utf8 "[2026-11-04 09:07:00] [ALLOW] 内容: hello\n"), true⟩).map
      (fun d => d.Logs.map (fun e => e.Message)) = some [utf8 " hello"] ∧
    utf8 " hello" ≠ utf8 "hello" ∧
    messagePart (utf8 "[2026-11-04 09:07:00] [ALLOW] 内容: hello") = some (utf8 " hello") ∧
    (utf8 "内容: ").length = 8 := by
  refine ⟨by decide, by decide, by decide, by decide, by decide⟩
theorem timePart_long (line : List Nat) (h : 20 < line.length) :
    timePart line = some ((line.take 20).drop 1) := by
  unfold timePart
  rw [if_pos h, slice_some line 1 20 (by omega)]
  rfl

theorem timePart_short (line : List Nat) (h : line.length ≤ 20) : timePart line = some [] := by
  unfold timePart
  rw [if_neg (by omega)]

/-- The record the loop body appends carries `timePart` and `messagePart` of the line. -/
theorem processLine_record (st : LoopState) (line t m : List Nat)
    (ht : timePart line = some t) (hm : messagePart line = some m) :
    ∃ st1 e, processLine st line = some st1 ∧ st1.logs = st.logs ++ [e] ∧
      e.Time = t ∧ e.Message = m := by
  obtain ⟨key, t1, m1, -, ht1, hm1, hp⟩ := processLine_total st line
  rw [ht] at ht1; rw [hm] at hm1
  simp only [Option.some.injEq] at ht1 hm1
  subst ht1; subst hm1
  by_cases hb : Contains line (utf8 "[BLOCK]") = true
  · simp only [hb, if_true] at hp
    exact ⟨_, _, hp, rfl, rfl, rfl⟩
  · simp only [hb, Bool.false_eq_true, if_false] at hp
    exact ⟨_, _, hp, rfl, rfl, rfl⟩

/-- C13 (as amended): the Time of the record parsed from a line is the 19 bytes at offsets
`[1,20)` whenever the line is longer than 20 bytes, and is empty exactly when the line has 20
bytes or fewer. -/
theorem C13_time_is_fixed_slice_of_lines_longer_than_twenty (st : LoopState)
    (line : List Nat) :
    ∃ st1 e, processLine st line = some st1 ∧ st1.logs = st.logs ++ [e] ∧
      (20 < line.length → e.Time = (line.take 20).drop 1 ∧ e.Time.length = 19) ∧
      (e.Time = [] ↔ line.length ≤ 20) := by
  obtain ⟨m, hm⟩ := messagePart_total line
  by_cases h : 20 < line.length
  · obtain ⟨st1, e, hp, hl, ht, -⟩ := processLine_record st line _ m (timePart_long line h) hm
    have hlen : ((line.take 20).drop 1).length = 19 := by
      simp only [List.length_drop, List.length_take]; omega
    refine ⟨st1, e, hp, hl, fun _ => ⟨ht, by rw [ht]; exact hlen⟩, ?_⟩
    constructor
    · intro he
      rw [ht] at he
      rw [he] at hlen
      simp at hlen
    · intro h2; omega
  · obtain ⟨st1, e, hp, hl, ht, -⟩ :=
      processLine_record st line _ m (timePart_short line (by omega)) hm
    exact ⟨st1, e, hp, hl, fun h2 => absurd h2 h, fun _ => by omega, fun _ => ht⟩

/-- C13 fails as stated at a line of exactly 20 bytes that passes the skip rule: the slice
`[1,20)` exists and is not empty, yet the Time of the parsed record is empty. -/
theorem C13_counterexample :
    (utf8 "[2026-11-04 09:07:0]").length = 20 ∧
    skipped (utf8 "[2026-11-04 09:07:0]") = false ∧
    slice (utf8 "[2026-11-04 09:07:0]") 1 20 = some (utf8 "2026-11-04 09:07:0]") ∧
    (handleAdmin ⟨some (utf8 "[2026-11-04 09:07:0]"), true⟩).map
      (fun d => d.Logs.map (fun e => e.Time)) = some [[]] := by
  refine ⟨by decide, by decide, by decide, by decide⟩
theorem not_singleton_infix_iff (c : Nat) (l : List Nat) : ¬ [c] <:+: l ↔ c ∉ l := by
  constructor
  · intro h hm
    obtain ⟨x, y, rfl⟩ := List.append_of_mem hm
    exact h ⟨x, y, by simp⟩
  · rintro h ⟨x, y, rfl⟩
    exact h (by simp)

/-- The last index of a single byte: either the byte is absent, or the string splits at its
last occurrence. -/
theorem lastIndexFrom_single (c : Nat) (s : List Nat) (i : Nat) :
    (c ∉ s ∧ lastIndexFrom [c] s i = -1) ∨
      (∃ x y, s = x ++ c :: y ∧ c ∉ y ∧ lastIndexFrom [c] s i = (i : Int) + x.length) := by
  induction s generalizing i with
  | nil =>
    left
    rw [lastIndexFrom_nil]
    simp [startsWith]
  | cons a t ih =>
    rw [lastIndexFrom_cons]
    rcases ih (i + 1) with ⟨hc, hr⟩ | ⟨x, y, rfl, hy, hr⟩
    · rw [hr]
      simp only [ne_eq, not_true_eq_false, if_false]
      by_cases ha : a = c
      · subst ha
        right
        refine ⟨[], t, rfl, hc, ?_⟩
        simp [startsWith]
      · left
        refine ⟨?_, ?_⟩
        · simp only [List.mem_cons, not_or]
          exact ⟨fun e => ha e.symm, hc⟩
        · simp [startsWith, ha]
    · right
      refine ⟨a :: x, y, rfl, hy, ?_⟩
      rw [hr]
      have : ((i + 1 : Nat) : Int) + (x.length : Int) ≠ -1 := by omega
      simp only [ne_eq, this, not_false_eq_true, if_true, List.length_cons]
      push_cast
      omega

theorem blockKey_between (line r : List Nat) (h : BetweenLastParens line r) :
    blockKey line = some (Replace (utf8 "禁止用語: ") (Replace (utf8 "検知: ") r)) := by
  obtain ⟨x, z, rfl, h1, h2, h3⟩ := h
  have eo : utf8 "(" = [40] := by decide
  have ec : utf8 ")" = [41] := by decide
  rw [eo] at h1 h2
  rw [ec] at h3
  rw [not_singleton_infix_iff] at h1 h2 h3
  have hstart : LastIndex (x ++ utf8 "(" ++ r ++ utf8 ")" ++ z) (utf8 "(") = x.length := by
    have : x ++ utf8 "(" ++ r ++ utf8 ")" ++ z = x ++ (utf8 "(" ++ (r ++ utf8 ")" ++ z)) := by
      simp only [List.append_assoc]
    rw [this]
    apply LastIndex_append
    · rw [eo]; simp
    · rw [eo, ec, not_singleton_infix_iff]
      simp only [List.singleton_append, List.tail_cons, List.mem_append, List.mem_singleton,
        not_or]
      exact ⟨⟨h1, by decide⟩, h2⟩
  have hstop : LastIndex (x ++ utf8 "(" ++ r ++ utf8 ")" ++ z) (utf8 ")") =
      ((x ++ utf8 "(" ++ r).length : Nat) := by
    have : x ++ utf8 "(" ++ r ++ utf8 ")" ++ z = (x ++ utf8 "(" ++ r) ++ (utf8 ")" ++ z) := by
      simp only [List.append_assoc]
    rw [this]
    apply LastIndex_append
    · rw [ec]; simp
    · rw [ec, not_singleton_infix_iff]
      simpa using h3
  have hsl : slice (x ++ utf8 "(" ++ r ++ utf8 ")" ++ z)
      ((x.length : Int) + 1) (((x ++ utf8 "(" ++ r).length : Nat) : Int) = some r := by
    have h5 : x ++ utf8 "(" ++ r ++ utf8 ")" ++ z = (x ++ utf8 "(") ++ r ++ (utf8 ")" ++ z) := by
      simp only [List.append_assoc]
    have h6 : ((x.length : Int) + 1) = ((x ++ utf8 "(").length : Int) := by
      rw [eo]; simp
    have h7 : (((x ++ utf8 "(" ++ r).length : Nat) : Int) =
        ((x ++ utf8 "(").length : Int) + r.length := by
      simp only [List.length_append]; push_cast; ring
    rw [h5, h6, h7, slice_middle]
  unfold blockKey
  simp only [hstart, hstop, hsl]
  have hcond : (x.length : Int) ≠ -1 ∧ (((x ++ utf8 "(" ++ r).length : Nat) : Int) ≠ -1 ∧
      (((x ++ utf8 "(" ++ r).length : Nat) : Int) > (x.length : Int) := by
    rw [eo]
    simp only [List.length_append, List.length_singleton]
    push_cast
    omega
  rw [if_pos hcond]
  rfl

theorem blockKey_other (line : List Nat) (h : ¬ ∃ r, BetweenLastParens line r) :
    blockKey line = some (utf8 "その他") := by
  have eo : utf8 "(" = [40] := by decide
  have ec : utf8 ")" = [41] := by decide
  unfold blockKey
  simp only
  split
  · rename_i hc
    exfalso
    apply h
    obtain ⟨hc1, hc2, hc3⟩ := hc
    have h1 := lastIndexFrom_single 40 line 0
    have h2 := lastIndexFrom_single 41 line 0
    simp only [LastIndex, eo, ec] at hc1 hc2 hc3
    rcases h1 with ⟨-, h1⟩ | ⟨x1, y1, hl1, hy1, h1⟩
    · exact absurd h1 hc1
    rcases h2 with ⟨-, h2⟩ | ⟨x2, y2, hl2, hy2, h2⟩
    · exact absurd h2 hc2
    rw [h1, h2] at hc3
    have hlen : x1.length < x2.length := by push_cast at hc3; omega
    have heq : x1 ++ 40 :: y1 = x2 ++ 41 :: y2 := by rw [← hl1, ← hl2]
    rcases List.append_eq_append_iff.1 heq with ⟨a, ha1, ha2⟩ | ⟨a, ha1, ha2⟩
    · -- x2 = x1 ++ a
      cases a with
      | nil =>
        simp only [List.append_nil] at ha1
        rw [ha1] at hlen; omega
      | cons b r =>
        simp only [List.cons_append, List.cons.injEq] at ha2
        obtain ⟨hb, hy⟩ := ha2
        subst hb
        refine ⟨r, x1, y2, ?_, ?_, ?_, ?_⟩
        · rw [hl2, ha1, eo, ec]; simp
        · rw [eo, not_singleton_infix_iff]
          intro hm; apply hy1; rw [hy]; simp [hm]
        · rw [eo, not_singleton_infix_iff]
          intro hm; apply hy1; rw [hy]; simp [hm]
        · rw [ec, not_singleton_infix_iff]; exact hy2
    · -- x1 = x2 ++ a
      have := congrArg List.length ha1
      simp only [List.length_append] at this
      omega
  · rfl

/-- C14 (as amended): for a line containing `[BLOCK]`, the key counted is the text strictly
between the last `(` and the last `)` (when the `)` comes after the `(`) with the first
instance of `検知: ` removed and then the first instance of `禁止用語: ` removed, wherever they
stand in that text; when there is no such pair of parentheses the key is `その他`. -/
theorem C14_key_is_text_between_last_parens_without_first_labels (st : LoopState)
    (line : List Nat) (hb : Contains line (utf8 "[BLOCK]") = true) :
    (∀ r, BetweenLastParens line r →
      ∃ st1, processLine st line = some st1 ∧ st1.blockCount = st.blockCount + 1 ∧
        st1.keywordMap = increment st.keywordMap
          (Replace (utf8 "禁止用語: ") (Replace (utf8 "検知: ") r))) ∧
    ((¬ ∃ r, BetweenLastParens line r) →
      ∃ st1, processLine st line = some st1 ∧ st1.blockCount = st.blockCount + 1 ∧
        st1.keywordMap = increment st.keywordMap (utf8 "その他")) := by
  obtain ⟨key, t, m, hk, -, -, hp⟩ := processLine_total st line
  simp only [hb, if_true] at hp
  constructor
  · intro r hr
    rw [blockKey_between line r hr, Option.some.injEq] at hk
    subst hk
    exact ⟨_, hp, rfl, rfl⟩
  · intro hn
    rw [blockKey_other line hn, Option.some.injEq] at hk
    subst hk
    exact ⟨_, hp, rfl, rfl⟩

/-- C14 at two lines: one whose parenthesised text starts with a label, one without any
parenthesis. -/
theorem C14_witness :
    Contains (utf8 "[2026-11-04 09:07:00] [BLOCK] 内容: x (検知: APIキー流出)") (utf8 "[BLOCK]") = true ∧
    BetweenLastParens (utf8 "[2026-11-04 09:07:00] [BLOCK] 内容: x (検知: APIキー流出)")
      (utf8 "検知: APIキー流出") ∧
    Replace (utf8 "禁止用語: ") (Replace (utf8 "検知: ") (utf8 "検知: APIキー流出")) =
      utf8 "APIキー流出" ∧
    (∃ st1, processLine { logs := [], blockCount := 0, allowCount := 0, keywordMap := [] }
        (utf8 "[2026-11-04 09:07:00] [BLOCK] 内容: x (検知: APIキー流出)") = some st1 ∧
      st1.blockCount = 0 + 1 ∧
      st1.keywordMap = increment []
        (Replace (utf8 "禁止用語: ") (Replace (utf8 "検知: ") (utf8 "検知: APIキー流出")))) :=
  have hb : Contains (utf8 "[2026-11-04 09:07:00] [BLOCK] 内容: x (検知: APIキー流出)")
      (utf8 "[BLOCK]") = true := by decide
  have hr : BetweenLastParens (utf8 "[2026-11-04 09:07:00] [BLOCK] 内容: x (検知: APIキー流出)")
      (utf8 "検知: APIキー流出") :=
    ⟨utf8 "[2026-11-04 09:07:00] [BLOCK] 内容: x ", [], by decide, by decide, by decide,
      by decide⟩
  ⟨hb, hr, by decide,
   (C14_key_is_text_between_last_parens_without_first_labels
      { logs := [], blockCount := 0, allowCount := 0, keywordMap := [] }
      (utf8 "[2026-11-04 09:07:00] [BLOCK] 内容: x (検知: APIキー流出)") hb).1 _ hr⟩

/-- C14 fails as stated at a line whose parenthesised text holds a label that is not leading:
removing a leading label leaves the text as it is, yet the key counted has the label cut out
of the middle. -/
theorem C14_counterexample :
    Contains (utf8 "[BLOCK] (see 検知: x)") (utf8 "[BLOCK]") = true ∧
    skipped (utf8 "[BLOCK] (see 検知: x)") = false ∧
    BetweenLastParens (utf8 "[BLOCK] (see 検知: x)") (utf8 "see 検知: x") ∧
    stripLeadingLabel (utf8 "see 検知: x") = utf8 "see 検知: x" ∧
    blockKey (utf8 "[BLOCK] (see 検知: x)") = some (utf8 "see x") ∧
    (handleAdmin ⟨some (utf8 "[BLOCK] (see 検知: x)"), true⟩).map (fun d => d.Ranking) =
      some [(utf8 "see x", 1)] :=
  ⟨by decide, by decide, ⟨utf8 "[BLOCK] ", [], by decide, by decide, by decide, by decide⟩,
   by decide, by decide, by decide⟩
/-! ## Invariants of the aggregation -/

theorem total_increment (m : Ranking) (key : List Nat) :
    total (increment m key) = total m + 1 := by
  induction m with
  | nil => simp [increment, total]
  | cons p m ih =>
    obtain ⟨k, n⟩ := p
    simp only [increment]
    by_cases h : k = key
    · simp only [h, if_true, total, List.map_cons, List.sum_cons]; omega
    · simp only [h, if_false]
      simp only [total, List.map_cons, List.sum_cons] at ih ⊢
      omega

theorem count_increment (m : Ranking) (key other : List Nat) :
    count (increment m key) other = count m other + (if other = key then 1 else 0) := by
  induction m with
  | nil =>
    by_cases h : other = key
    · simp [increment, count, h]
    · have h2 : ¬ key = other := fun e => h e.symm
      simp [increment, count, h, h2]
  | cons p m ih =>
    obtain ⟨k, n⟩ := p
    simp only [increment]
    by_cases hk : k = key
    · subst hk
      by_cases ho : k = other
      · subst ho; simp [count]
      · have ho2 : ¬ other = k := fun e => ho e.symm
        simp [count, ho, ho2]
    · simp only [hk, if_false, count]
      by_cases ho : k = other
      · subst ho
        have : ¬ k = key := hk
        simp [this]
      · simp only [ho, if_false]; exact ih

theorem keys_increment (m : Ranking) (key : List Nat) (k : List Nat) :
    k ∈ (increment m key).map (fun p => p.1) ↔ k = key ∨ k ∈ m.map (fun p => p.1) := by
  induction m with
  | nil => simp [increment]
  | cons p m ih =>
    obtain ⟨k1, n⟩ := p
    simp only [increment]
    by_cases h : k1 = key
    · subst h
      simp only [if_true, List.map_cons, List.mem_cons]
      tauto
    · simp only [h, if_false, List.map_cons, List.mem_cons, ih]
      tauto

theorem nodup_increment (m : Ranking) (key : List Nat)
    (h : (m.map (fun p => p.1)).Nodup) : ((increment m key).map (fun p => p.1)).Nodup := by
  induction m with
  | nil => simp [increment]
  | cons p m ih =>
    obtain ⟨k1, n⟩ := p
    simp only [List.map_cons, List.nodup_cons] at h
    simp only [increment]
    by_cases hk : k1 = key
    · subst hk
      simp only [if_true, List.map_cons, List.nodup_cons]
      exact h
    · simp only [hk, if_false, List.map_cons, List.nodup_cons]
      refine ⟨?_, ih h.2⟩
      rw [keys_increment]
      rintro (e | e)
      · exact hk e
      · exact h.1 e

theorem adminLoop_ranking (ls : List (List Nat)) (st st1 : LoopState)
    (h : adminLoop ls st = some st1)
    (hinv : total st.keywordMap = st.blockCount ∧ (st.keywordMap.map (fun p => p.1)).Nodup) :
    total st1.keywordMap = st1.blockCount ∧ (st1.keywordMap.map (fun p => p.1)).Nodup := by
  induction ls generalizing st with
  | nil =>
    simp only [adminLoop, Option.some.injEq] at h
    subst h; exact hinv
  | cons line rest ih =>
    simp only [adminLoop] at h
    by_cases hs : skipped line = true
    · simp only [hs, if_true] at h; exact ih st h hinv
    · obtain ⟨key, t, m, -, -, -, hp⟩ := processLine_total st line
      simp only [hs, Bool.false_eq_true, if_false, hp] at h
      refine ih _ h ?_
      by_cases hb : Contains line (utf8 "[BLOCK]") = true
      · simp only [hb, if_true, total_increment, hinv.1]
        exact ⟨trivial, nodup_increment _ _ hinv.2⟩
      · simp only [hb, Bool.false_eq_true, if_false]
        exact hinv

/-- C17: the reader is total.  For every log content `handleAdmin` returns its data; on every
line each of the three slices is taken within bounds, and the line is either skipped or turned
into one record. -/
theorem C17_log_reader_never_panics (fs : FS) :
    (∃ d, handleAdmin fs = some d) ∧
    (∀ line : List Nat,
      (LastIndex line (utf8 "(") ≠ -1 ∧ LastIndex line (utf8 ")") ≠ -1 ∧
          LastIndex line (utf8 ")") > LastIndex line (utf8 "(") →
        0 ≤ LastIndex line (utf8 "(") + 1 ∧
        LastIndex line (utf8 "(") + 1 ≤ LastIndex line (utf8 ")") ∧
        LastIndex line (utf8 ")") ≤ (line.length : Int) ∧
        ∃ r, slice line (LastIndex line (utf8 "(") + 1) (LastIndex line (utf8 ")")) = some r) ∧
      (line.length > 20 → ∃ t, slice line 1 20 = some t) ∧
      (LastIndex line (utf8 "内容: ") ≠ -1 →
        0 ≤ LastIndex line (utf8 "内容: ") + 7 ∧
        LastIndex line (utf8 "内容: ") + 7 ≤ (line.length : Int) ∧
        ∃ m, slice line (LastIndex line (utf8 "内容: ") + 7) line.length = some m) ∧
      (∀ st : LoopState, ∃ st1, adminLoop [line] st = some st1 ∧
        ((skipped line = true ∧ st1 = st) ∨
         (skipped line = false ∧ ∃ e, st1.logs = st.logs ++ [e])))) := by
  constructor
  · obtain ⟨st, -, hd⟩ := handleAdmin_eq fs
    exact ⟨_, hd⟩
  · intro line
    have h1 := LastIndex_bounds line (utf8 "(")
    have h2 := LastIndex_bounds line (utf8 ")")
    have h3 := LastIndex_bounds line (utf8 "内容: ")
    have e2 : (utf8 ")").length = 1 := by decide
    have e3 : (utf8 "内容: ").length = 8 := by decide
    rw [e2] at h2
    rw [e3] at h3
    refine ⟨?_, ?_, ?_, ?_⟩
    · intro hc
      have hb : 0 ≤ LastIndex line (utf8 "(") + 1 ∧
          LastIndex line (utf8 "(") + 1 ≤ LastIndex line (utf8 ")") ∧
          LastIndex line (utf8 ")") ≤ (line.length : Int) := by omega
      exact ⟨hb.1, hb.2.1, hb.2.2, _, slice_some line _ _ hb⟩
    · intro hl
      exact ⟨_, slice_some line 1 20 (by omega)⟩
    · intro hc
      have hb : 0 ≤ LastIndex line (utf8 "内容: ") + 7 ∧
          LastIndex line (utf8 "内容: ") + 7 ≤ (line.length : Int) ∧
          (line.length : Int) ≤ (line.length : Int) := by omega
      exact ⟨hb.1, hb.2.1, _, slice_some line _ _ hb⟩
    · intro st
      by_cases hs : skipped line = true
      · exact ⟨st, adminLoop_skip line st hs, Or.inl ⟨hs, rfl⟩⟩
      · obtain ⟨t, ht⟩ := timePart_total line
        obtain ⟨m, hm⟩ := messagePart_total line
        obtain ⟨st1, e, hp, hl, -, -⟩ := processLine_record st line t m ht hm
        refine ⟨st1, ?_, Or.inr ⟨by simpa using hs, e, hl⟩⟩
        simp [adminLoop, hs, hp]
/-! ## What a written record reads back as -/

/-- The two ways an inspection ends: a block with one of the reasons the checks produce, or the
ALLOW path. -/
theorem handleChat_outcome (fs : FS) (now msg : List Nat) :
    (∃ reason,
      ((∃ w ∈ forbiddenWords, w <:+: msg ∧ reason = utf8 "禁止用語: " ++ w) ∨
        reason = utf8 "検知: メールアドレス流出" ∨ reason = utf8 "検知: APIキー流出" ∨
        reason = utf8 "検知: ソースコード送信") ∧
      handleChat fs now (chatRequest msg) = blockWithLog fs now msg reason) ∨
    handleChat fs now (chatRequest msg) =
      (writeAuditLog fs now (utf8 "ALLOW") msg, { status := 200, body := askGeminiMock msg }) := by
  cases h0 : forbiddenLoop msg forbiddenWords with
  | some w =>
    obtain ⟨pre, post, hws, hw, -⟩ := forbiddenLoop_some _ _ _ h0
    exact Or.inl ⟨_, Or.inl ⟨w, by rw [hws]; simp, hw, rfl⟩, handleChat_forbidden fs now msg w h0⟩
  | none =>
    rw [handleChat_clean fs now msg h0]
    by_cases h1 : MatchString emailPattern msg = true
    · simp only [h1, if_true]
      exact Or.inl ⟨_, Or.inr (Or.inl rfl), rfl⟩
    · by_cases h2 : (MatchString googleKeyPattern msg || MatchString awsKeyPattern msg) = true
      · simp only [h1, h2, if_true, Bool.false_eq_true, if_false]
        exact Or.inl ⟨_, Or.inr (Or.inr (Or.inl rfl)), rfl⟩
      · by_cases h3 : MatchString codePattern msg = true
        · simp only [h1, h2, h3, if_true, Bool.false_eq_true, if_false]
          exact Or.inl ⟨_, Or.inr (Or.inr (Or.inr rfl)), rfl⟩
        · simp only [h1, h2, h3, Bool.false_eq_true, if_false]
          exact Or.inr trivial

/-- Each reason the checks produce is free of line feeds and of `(`, and removing the labels
from it leaves the bare reason. -/
theorem reason_facts (msg reason : List Nat)
    (h : (∃ w ∈ forbiddenWords, w <:+: msg ∧ reason = utf8 "禁止用語: " ++ w) ∨
      reason = utf8 "検知: メールアドレス流出" ∨ reason = utf8 "検知: APIキー流出" ∨
      reason = utf8 "検知: ソースコード送信") :
    10 ∉ reason ∧ ¬ utf8 "(" <:+: reason ∧
    ∃ key, Replace (utf8 "禁止用語: ") (Replace (utf8 "検知: ") reason) = key ∧
      ((∃ w ∈ forbiddenWords, w <:+: msg ∧ reason = utf8 "禁止用語: " ++ w ∧ key = w) ∨
        (reason = utf8 "検知: メールアドレス流出" ∧ key = utf8 "メールアドレス流出") ∨
        (reason = utf8 "検知: APIキー流出" ∧ key = utf8 "APIキー流出") ∨
        (reason = utf8 "検知: ソースコード送信" ∧ key = utf8 "ソースコード送信")) := by
  have hall : ∀ w ∈ forbiddenWords, 10 ∉ utf8 "禁止用語: " ++ w ∧
      ¬ utf8 "(" <:+: utf8 "禁止用語: " ++ w ∧
      Replace (utf8 "禁止用語: ") (Replace (utf8 "検知: ") (utf8 "禁止用語: " ++ w)) = w := by
    decide
  rcases h with ⟨w, hw, hin, rfl⟩ | rfl | rfl | rfl
  · obtain ⟨a, b, c⟩ := hall w hw
    exact ⟨a, b, w, c, Or.inl ⟨w, hw, hin, rfl, rfl⟩⟩
  · exact ⟨by decide, by decide, _, by decide, Or.inr (Or.inl ⟨rfl, rfl⟩)⟩
  · exact ⟨by decide, by decide, _, by decide, Or.inr (Or.inr (Or.inl ⟨rfl, rfl⟩))⟩
  · exact ⟨by decide, by decide, _, by decide, Or.inr (Or.inr (Or.inr ⟨rfl, rfl⟩))⟩

/-- The Time read from a written line is the timestamp that was written. -/
theorem timePart_recordText (now status m : List Nat) (hnow : now.length = 19) :
    timePart (recordText now status m) = some now := by
  have e : utf8 "[" = [91] := by decide
  have hrt : recordText now status m =
      91 :: (now ++ (utf8 "] [" ++ status ++ utf8 "] 内容: " ++ m)) := by
    simp only [recordText, e, List.append_assoc, List.singleton_append, List.cons_append,
      List.nil_append]
  have e2 : (utf8 "] [").length = 3 := by decide
  have hlen : 20 < (recordText now status m).length := by
    rw [hrt]
    simp only [List.length_cons, List.length_append, hnow, e2]
    omega
  rw [timePart_long _ hlen, hrt]
  have : List.take 20 (91 :: (now ++ (utf8 "] [" ++ status ++ utf8 "] 内容: " ++ m))) =
      91 :: now := by
    rw [List.take_succ_cons, List.take_left' hnow]
  rw [this]
  rfl

/-- The record read back after a successful write onto a terminated log. -/
theorem handleAdmin_after_write (fs : FS) (now status m : List Nat)
    (hopen : fs.canOpen = true) (hterm : Terminated (fs.file.getD []))
    (h1 : 10 ∉ now) (h2 : 10 ∉ status) (h3 : 10 ∉ m) :
    ∃ st st1,
      handleAdmin fs = some (⟨st.logs, st.blockCount + st.allowCount, st.blockCount,
        st.allowCount, st.keywordMap⟩ : AdminData) ∧
      processLine st (recordText now status m) = some st1 ∧
      handleAdmin (writeAuditLog fs now status m) =
        some (⟨st1.logs, st1.blockCount + st1.allowCount, st1.blockCount, st1.allowCount,
          st1.keywordMap⟩ : AdminData) := by
  obtain ⟨st, hst0, hd⟩ := handleAdmin_eq fs
  obtain ⟨st1, hst1, hd1⟩ := handleAdmin_eq (writeAuditLog fs now status m)
  rw [adminLoop_after_write fs now status m _ hopen hterm h1 h2 h3, hst0, Option.some_bind]
    at hst1
  exact ⟨st, st1, hd, hst1, hd1⟩
/-- C15 (as amended): on a log that can be opened and is empty or ends in a line feed, for a
message without a line feed, the record read back for an inspection has Status `BLOCK` and is
counted in Block whenever `handleChat` blocked the message, and has Status `ALLOW` and is
counted in Allow whenever `handleChat` allowed the message and the message does not itself
contain `[BLOCK]`. -/
theorem C15_decision_read_back_unless_message_holds_block_marker (fs : FS)
    (now msg : List Nat) (hopen : fs.canOpen = true) (hterm : Terminated (fs.file.getD []))
    (hnow : isTimestamp now) (hmsg : ¬ utf8 "\n" <:+: msg) :
    ∃ d d1 e, handleAdmin fs = some d ∧
      handleAdmin (handleChat fs now (chatRequest msg)).1 = some d1 ∧
      d1.Logs = d.Logs ++ [e] ∧
      ((handleChat fs now (chatRequest msg)).2.status = 200 → ¬ utf8 "[BLOCK]" <:+: msg →
        e.Status = utf8 "ALLOW" ∧ d1.Allow = d.Allow + 1 ∧ d1.Block = d.Block) ∧
      ((handleChat fs now (chatRequest msg)).2.status = 403 →
        e.Status = utf8 "BLOCK" ∧ d1.Block = d.Block + 1 ∧ d1.Allow = d.Allow) := by
  have h1 := isTimestamp_no_lf now hnow
  have h3 : 10 ∉ msg := (not_lf_infix_iff msg).1 hmsg
  rcases handleChat_outcome fs now msg with ⟨reason, hr, hc⟩ | hc
  · obtain ⟨hr1, -, -⟩ := reason_facts msg reason hr
    have hm : 10 ∉ msg ++ utf8 " (" ++ reason ++ utf8 ")" := by
      have e1 : 10 ∉ utf8 " (" := by decide
      have e2 : 10 ∉ utf8 ")" := by decide
      simp only [List.mem_append, not_or]
      exact ⟨⟨⟨h3, e1⟩, hr1⟩, e2⟩
    obtain ⟨st, st1, hd, hp, hd1⟩ := handleAdmin_after_write fs now (utf8 "BLOCK")
      (msg ++ utf8 " (" ++ reason ++ utf8 ")") hopen hterm h1 (by decide) hm
    obtain ⟨key, t, m, -, -, -, hp2⟩ := processLine_total st
      (recordText now (utf8 "BLOCK") (msg ++ utf8 " (" ++ reason ++ utf8 ")"))
    rw [hp, recordText_block_contains, if_pos rfl, Option.some.injEq] at hp2
    subst hp2
    refine ⟨_, _, _, hd, by rw [hc]; exact hd1, rfl, ?_, ?_⟩
    · intro hs
      rw [hc] at hs
      simp [blockWithLog] at hs
    · intro _
      exact ⟨rfl, rfl, rfl⟩
  · obtain ⟨st, st1, hd, hp, hd1⟩ := handleAdmin_after_write fs now (utf8 "ALLOW") msg hopen hterm
      h1 (by decide) h3
    obtain ⟨key, t, m, -, -, -, hp2⟩ := processLine_total st (recordText now (utf8 "ALLOW") msg)
    by_cases hb : utf8 "[BLOCK]" <:+: msg
    · rw [hp, Option.some.injEq] at hp2
      subst hp2
      by_cases hcb : Contains (recordText now (utf8 "ALLOW") msg) (utf8 "[BLOCK]") = true
      · refine ⟨_, _, _, hd, by rw [hc]; exact hd1, by rw [if_pos hcb], ?_, ?_⟩
        · intro _ hn; exact absurd hb hn
        · intro hs; rw [hc] at hs; simp at hs
      · refine ⟨_, _, _, hd, by rw [hc]; exact hd1, by rw [if_neg hcb], ?_, ?_⟩
        · intro _ hn; exact absurd hb hn
        · intro hs; rw [hc] at hs; simp at hs
    · rw [hp, recordText_allow_contains now msg hnow hb, Option.some.injEq] at hp2
      subst hp2
      refine ⟨_, _, _, hd, by rw [hc]; exact hd1, rfl, ?_, ?_⟩
      · intro _ _
        exact ⟨rfl, rfl, rfl⟩
      · intro hs; rw [hc] at hs; simp at hs

/-- C15 at an empty log: the allowed message `hello` and the blocked message
`my password is 1234`. -/
theorem C15_witness :
    Terminated ((⟨some [], true⟩ : FS).file.getD []) ∧ isTimestamp (utf8 "2026-11-04 09:07:00") ∧
    ¬ utf8 "\n" <:+: utf8 "hello" ∧ ¬ utf8 "\n" <:+: utf8 "my password is 1234" ∧
    (handleChat ⟨some [], true⟩ (utf8 "2026-11-04 09:07:00") (chatRequest (utf8 "hello"))).2.status
      = 200 ∧
    ¬ utf8 "[BLOCK]" <:+: utf8 "hello" ∧
    (handleChat ⟨some [], true⟩ (utf8 "2026-11-04 09:07:00")
      (chatRequest (utf8 "my password is 1234"))).2.status = 403 ∧
    (∃ d d1 e, handleAdmin ⟨some [], true⟩ = some d ∧
      handleAdmin (handleChat ⟨some [], true⟩ (utf8 "2026-11-04 09:07:00")
        (chatRequest (utf8 "hello"))).1 = some d1 ∧
      d1.Logs = d.Logs ++ [e] ∧
      ((handleChat ⟨some [], true⟩ (utf8 "2026-11-04 09:07:00")
          (chatRequest (utf8 "hello"))).2.status = 200 → ¬ utf8 "[BLOCK]" <:+: utf8 "hello" →
        e.Status = utf8 "ALLOW" ∧ d1.Allow = d.Allow + 1 ∧ d1.Block = d.Block) ∧
      ((handleChat ⟨some [], true⟩ (utf8 "2026-11-04 09:07:00")
          (chatRequest (utf8 "hello"))).2.status = 403 →
        e.Status = utf8 "BLOCK" ∧ d1.Block = d.Block + 1 ∧ d1.Allow = d.Allow)) ∧
    (∃ d d1 e, handleAdmin ⟨some [], true⟩ = some d ∧
      handleAdmin (handleChat ⟨some [], true⟩ (utf8 "2026-11-04 09:07:00")
        (chatRequest (utf8 "my password is 1234"))).1 = some d1 ∧
      d1.Logs = d.Logs ++ [e] ∧
      ((handleChat ⟨some [], true⟩ (utf8 "2026-11-04 09:07:00")
          (chatRequest (utf8 "my password is 1234"))).2.status = 200 →
        ¬ utf8 "[BLOCK]" <:+: utf8 "my password is 1234" →
        e.Status = utf8 "ALLOW" ∧ d1.Allow = d.Allow + 1 ∧ d1.Block = d.Block) ∧
      ((handleChat ⟨some [], true⟩ (utf8 "2026-11-04 09:07:00")
          (chatRequest (utf8 "my password is 1234"))).2.status = 403 →
        e.Status = utf8 "BLOCK" ∧ d1.Block = d.Block + 1 ∧ d1.Allow = d.Allow)) :=
  have hterm : Terminated ((⟨some [], true⟩ : FS).file.getD []) := Or.inl rfl
  have hnow : isTimestamp (utf8 "2026-11-04 09:07:00") := ⟨by decide, by decide⟩
  ⟨hterm, hnow, by decide, by decide, by decide, by decide, by decide,
   C15_decision_read_back_unless_message_holds_block_marker ⟨some [], true⟩
     (utf8 "2026-11-04 09:07:00") (utf8 "hello") rfl hterm hnow (by decide),
   C15_decision_read_back_unless_message_holds_block_marker ⟨some [], true⟩
     (utf8 "2026-11-04 09:07:00") (utf8 "my password is 1234") rfl hterm hnow (by decide)⟩

/-- C15 fails as stated: the message `what does [BLOCK] mean?` is allowed, and the line written
for it is read back with Status `BLOCK` and counted in Block, not in Allow. -/
theorem C15_counterexample :
    (handleChat ⟨some [], true⟩ (utf8 "2026-11-04 09:07:00")
      (chatRequest (utf8 "what does [BLOCK] mean?"))).2.status = 200 ∧
    (handleChat ⟨some [], true⟩ (utf8 "2026-11-04 09:07:00")
      (chatRequest (utf8 "what does [BLOCK] mean?"))).1.file =
      some (utf8 "[2026-11-04 09:07:00] [ALLOW] 内容: what does [BLOCK] mean?\n") ∧
    (handleAdmin (handleChat ⟨some [], true⟩ (utf8 "2026-11-04 09:07:00")
        (chatRequest (utf8 "what does [BLOCK] mean?"))).1).map
      (fun d => (d.Logs.map (fun e => e.Status), d.Block, d.Allow)) =
      some ([utf8 "BLOCK"], 1, 0) := by
  refine ⟨by decide, by decide, by decide⟩
/-- C18: for a message without a line break that `handleChat` blocks, the line written by
`blockWithLog` reads back with the bare reason as ranking key, whatever parentheses or labels
the message holds: the matched forbidden term, or `メールアドレス流出`, `APIキー流出`,
`ソースコード送信`; and with the 19-byte timestamp that was written as Time.  On a log that can
be opened and is empty or ends in a line feed, `handleAdmin` reports exactly that record. -/
theorem C18_block_line_reads_back_bare_reason_and_time (fs : FS) (now msg : List Nat)
    (hnow : isTimestamp now) (hmsg : ¬ utf8 "\n" <:+: msg)
    (hblk : (handleChat fs now (chatRequest msg)).2.status = 403) :
    ∃ reason key,
      handleChat fs now (chatRequest msg) = blockWithLog fs now msg reason ∧
      ((∃ w ∈ forbiddenWords, w <:+: msg ∧ reason = utf8 "禁止用語: " ++ w ∧ key = w) ∨
        (reason = utf8 "検知: メールアドレス流出" ∧ key = utf8 "メールアドレス流出") ∨
        (reason = utf8 "検知: APIキー流出" ∧ key = utf8 "APIキー流出") ∨
        (reason = utf8 "検知: ソースコード送信" ∧ key = utf8 "ソースコード送信")) ∧
      blockKey (recordText now (utf8 "BLOCK") (msg ++ utf8 " (" ++ reason ++ utf8 ")")) =
        some key ∧
      timePart (recordText now (utf8 "BLOCK") (msg ++ utf8 " (" ++ reason ++ utf8 ")")) =
        some now ∧
      now.length = 19 ∧
      (fs.canOpen = true → Terminated (fs.file.getD []) →
        ∃ d d1 e, handleAdmin fs = some d ∧
          handleAdmin (handleChat fs now (chatRequest msg)).1 = some d1 ∧
          d1.Logs = d.Logs ++ [e] ∧ e.Time = now ∧ e.Status = utf8 "BLOCK" ∧
          d1.Ranking = increment d.Ranking key) := by
  have h1 := isTimestamp_no_lf now hnow
  have h3 : 10 ∉ msg := (not_lf_infix_iff msg).1 hmsg
  rcases handleChat_outcome fs now msg with ⟨reason, hr, hc⟩ | hc
  · obtain ⟨hr1, hr2, key, hkey, hcases⟩ := reason_facts msg reason hr
    have hbk := blockKey_recordText now msg reason hr2
    rw [hkey] at hbk
    have htm := timePart_recordText now (utf8 "BLOCK") (msg ++ utf8 " (" ++ reason ++ utf8 ")")
      hnow.1
    refine ⟨reason, key, hc, hcases, hbk, htm, hnow.1, ?_⟩
    intro hopen hterm
    have hm : 10 ∉ msg ++ utf8 " (" ++ reason ++ utf8 ")" := by
      have e1 : 10 ∉ utf8 " (" := by decide
      have e2 : 10 ∉ utf8 ")" := by decide
      simp only [List.mem_append, not_or]
      exact ⟨⟨⟨h3, e1⟩, hr1⟩, e2⟩
    obtain ⟨st, st1, hd, hp, hd1⟩ := handleAdmin_after_write fs now (utf8 "BLOCK")
      (msg ++ utf8 " (" ++ reason ++ utf8 ")") hopen hterm h1 (by decide) hm
    obtain ⟨key1, t, m, hk1, ht1, -, hp2⟩ := processLine_total st
      (recordText now (utf8 "BLOCK") (msg ++ utf8 " (" ++ reason ++ utf8 ")"))
    rw [hbk, Option.some.injEq] at hk1
    rw [htm, Option.some.injEq] at ht1
    rw [hp, recordText_block_contains, if_pos rfl, Option.some.injEq] at hp2
    subst hp2; subst hk1; subst ht1
    exact ⟨_, _, _, hd, by rw [hc]; exact hd1, rfl, rfl, rfl, rfl⟩
  · rw [hc] at hblk
    simp at hblk

/-- C18 at the message `(see 検知: notes) my password is 1234`, which holds parentheses and a
label of its own: the key read back is `password` and the Time is the timestamp written. -/
theorem C18_witness :
    isTimestamp (utf8 "2026-11-04 09:07:00") ∧
    ¬ utf8 "\n" <:+: utf8 "(see 検知: notes) my password is 1234" ∧
    (handleChat ⟨some [], true⟩ (utf8 "2026-11-04 09:07:00")
      (chatRequest (utf8 "(see 検知: notes) my password is 1234"))).2.status = 403 ∧
    (∃ reason key,
      handleChat ⟨some [], true⟩ (utf8 "2026-11-04 09:07:00")
          (chatRequest (utf8 "(see 検知: notes) my password is 1234")) =
        blockWithLog ⟨some [], true⟩ (utf8 "2026-11-04 09:07:00")
          (utf8 "(see 検知: notes) my password is 1234") reason ∧
      ((∃ w ∈ forbiddenWords, w <:+: utf8 "(see 検知: notes) my password is 1234" ∧
          reason = utf8 "禁止用語: " ++ w ∧ key = w) ∨
        (reason = utf8 "検知: メールアドレス流出" ∧ key = utf8 "メールアドレス流出") ∨
        (reason = utf8 "検知: APIキー流出" ∧ key = utf8 "APIキー流出") ∨
        (reason = utf8 "検知: ソースコード送信" ∧ key = utf8 "ソースコード送信")) ∧
      blockKey (recordText (utf8 "2026-11-04 09:07:00") (utf8 "BLOCK")
          (utf8 "(see 検知: notes) my password is 1234" ++ utf8 " (" ++ reason ++ utf8 ")")) =
        some key ∧
      timePart (recordText (utf8 "2026-11-04 09:07:00") (utf8 "BLOCK")
          (utf8 "(see 検知: notes) my password is 1234" ++ utf8 " (" ++ reason ++ utf8 ")")) =
        some (utf8 "2026-11-04 09:07:00") ∧
      (utf8 "2026-11-04 09:07:00").length = 19 ∧
      ((⟨some [], true⟩ : FS).canOpen = true → Terminated ((⟨some [], true⟩ : FS).file.getD []) →
        ∃ d d1 e, handleAdmin ⟨some [], true⟩ = some d ∧
          handleAdmin (handleChat ⟨some [], true⟩ (utf8 "2026-11-04 09:07:00")
            (chatRequest (utf8 "(see 検知: notes) my password is 1234"))).1 = some d1 ∧
          d1.Logs = d.Logs ++ [e] ∧ e.Time = utf8 "2026-11-04 09:07:00" ∧
          e.Status = utf8 "BLOCK" ∧ d1.Ranking = increment d.Ranking key)) ∧
    (handleAdmin (handleChat ⟨some [], true⟩ (utf8 "2026-11-04 09:07:00")
        (chatRequest (utf8 "(see 検知: notes) my password is 1234"))).1).map
      (fun d => (d.Ranking, d.Logs.map (fun e => e.Time))) =
      some ([(utf8 "password", 1)], [utf8 "2026-11-04 09:07:00"]) :=
  have hnow : isTimestamp (utf8 "2026-11-04 09:07:00") := ⟨by decide, by decide⟩
  ⟨hnow, by decide, by decide,
   C18_block_line_reads_back_bare_reason_and_time ⟨some [], true⟩ (utf8 "2026-11-04 09:07:00")
     (utf8 "(see 検知: notes) my password is 1234") hnow (by decide) (by decide),
   by decide⟩
/-! ## What the loop does with the lines of the file -/

theorem skipped_eq (line : List Nat) : skipped line = !survives line := by
  by_cases h1 : line = []
  · subst h1; decide
  · by_cases h2 : utf8 "]" <:+: line
    · simp [skipped, survives, h1, h2, (Contains_iff _ _).2 h2]
    · simp [skipped, survives, h1, h2, (Contains_eq_false_iff _ _).2 h2]

theorem isBlockLine_eq (line : List Nat) : isBlockLine line = Contains line (utf8 "[BLOCK]") := by
  by_cases h : utf8 "[BLOCK]" <:+: line
  · simp [isBlockLine, h, (Contains_iff _ _).2 h]
  · simp [isBlockLine, h, (Contains_eq_false_iff _ _).2 h]

/-- The loop, line by line: every line that passes the skip rule, and no other, appends one
record with the status of the line, adds one to the counter of that status and, for a BLOCK
line, adds one to the count of the key of that line. -/
theorem adminLoop_survivors (ls : List (List Nat)) (st st1 : LoopState)
    (h : adminLoop ls st = some st1) :
    st1.logs.map (fun e => e.Status) = st.logs.map (fun e => e.Status) ++
      (ls.filter survives).map (fun l => if isBlockLine l then utf8 "BLOCK" else utf8 "ALLOW") ∧
    st1.blockCount = st.blockCount + ((ls.filter survives).filter isBlockLine).length ∧
    st1.allowCount = st.allowCount +
      ((ls.filter survives).filter (fun l => !isBlockLine l)).length ∧
    ∀ k, count st1.keywordMap k = count st.keywordMap k +
      ((ls.filter survives).filter
        (fun l => isBlockLine l && decide (blockKey l = some k))).length := by
  induction ls generalizing st with
  | nil =>
    simp only [adminLoop, Option.some.injEq] at h
    subst h
    simp
  | cons line rest ih =>
    simp only [adminLoop] at h
    by_cases hs : skipped line = true
    · simp only [hs, if_true] at h
      have hsv : survives line = false := by
        rw [skipped_eq] at hs; simpa using hs
      rw [List.filter_cons_of_neg (by simp [hsv])]
      exact ih st h
    · obtain ⟨key, t, m, hk, -, -, hp⟩ := processLine_total st line
      simp only [hs, Bool.false_eq_true, if_false, hp] at h
      have hsv : survives line = true := by
        rw [skipped_eq] at hs; simpa using hs
      rw [List.filter_cons_of_pos hsv]
      obtain ⟨i1, i2, i3, i4⟩ := ih _ h
      by_cases hb : Contains line (utf8 "[BLOCK]") = true
      · have hbl : isBlockLine line = true := by rw [isBlockLine_eq]; exact hb
        simp only [hb, if_true] at i1 i2 i3 i4
        refine ⟨?_, ?_, ?_, ?_⟩
        · rw [i1]; simp [hbl]
        · rw [i2, List.filter_cons_of_pos hbl]; simp only [List.length_cons]; omega
        · rw [i3, List.filter_cons_of_neg (by simp [hbl])]
        · intro k
          rw [i4 k, count_increment]
          by_cases hkk : k = key
          · subst hkk
            rw [List.filter_cons_of_pos (by simp [hbl, hk])]
            simp only [if_true, List.length_cons]; omega
          · have : ¬ blockKey line = some k := by
              rw [hk]; intro e; exact hkk (Option.some.inj e).symm
            rw [List.filter_cons_of_neg (by simp [this])]
            simp [hkk]
      · have hbl : isBlockLine line = false := by
          rw [isBlockLine_eq]; simpa using hb
        simp only [hb, Bool.false_eq_true, if_false] at i1 i2 i3 i4
        refine ⟨?_, ?_, ?_, ?_⟩
        · rw [i1]; simp [hbl]
        · rw [i2, List.filter_cons_of_neg (by simp [hbl])]
        · rw [i3, List.filter_cons_of_pos (by simp [hbl])]; simp only [List.length_cons]; omega
        · intro k
          rw [i4 k, List.filter_cons_of_neg (by simp [hbl])]

/-- C5: for every log content the summary satisfies `Total = Block + Allow` and `Total` is the
number of parsed records.  The records are, in file order, one per line of the file that passes
the skip rule, each with the status of its line; `Block` counts the surviving lines that hold
`[BLOCK]` and `Allow` the surviving lines that do not.  A line that passes the skip rule adds
exactly one record and one unit to exactly one of the two counters. -/
theorem C5_total_is_block_plus_allow_is_record_count (fs : FS) :
    (∃ d, handleAdmin fs = some d ∧ d.Total = d.Block + d.Allow ∧ d.Total = d.Logs.length ∧
      d.Logs.map (fun e => e.Status) = (survivors (fs.file.getD [])).map
        (fun l => if isBlockLine l then utf8 "BLOCK" else utf8 "ALLOW") ∧
      d.Logs.length = (survivors (fs.file.getD [])).length ∧
      d.Block = ((survivors (fs.file.getD [])).filter isBlockLine).length ∧
      d.Allow = ((survivors (fs.file.getD [])).filter (fun l => !isBlockLine l)).length) ∧
    (∀ (st : LoopState) (line : List Nat), ∃ st1, processLine st line = some st1 ∧
      st1.logs.length = st.logs.length + 1 ∧
      ((st1.blockCount = st.blockCount + 1 ∧ st1.allowCount = st.allowCount) ∨
       (st1.blockCount = st.blockCount ∧ st1.allowCount = st.allowCount + 1))) := by
  constructor
  · obtain ⟨st, hst, hd⟩ := handleAdmin_eq fs
    obtain ⟨i1, i2, i3, -⟩ := adminLoop_survivors _ _ _ hst
    simp only [List.map_nil, List.nil_append, Nat.zero_add] at i1 i2 i3
    refine ⟨_, hd, rfl, adminLoop_counts _ _ _ hst rfl, i1, ?_, i2, i3⟩
    have := congrArg List.length i1
    simpa [survivors] using this
  · intro st line
    obtain ⟨key, t, m, -, -, -, hp⟩ := processLine_total st line
    refine ⟨_, hp, ?_, ?_⟩
    · by_cases hb : Contains line (utf8 "[BLOCK]") = true <;> simp [hb]
    · by_cases hb : Contains line (utf8 "[BLOCK]") = true <;> simp [hb]

/-- C5 at a log of four lines, one of them without `]` and one empty: two records, one BLOCK
and one ALLOW. -/
theorem C5_witness :
    survivors (utf8 "[t] [ALLOW] 内容: a\nnoise\n\n[t] [BLOCK] 内容: b (検知: x)\n") =
      [utf8 "[t] [ALLOW] 内容: a", utf8 "[t] [BLOCK] 内容: b (検知: x)"] ∧
    (handleAdmin ⟨some (utf8 "[t] [ALLOW] 内容: a\nnoise\n\n[t] [BLOCK] 内容: b (検知: x)\n"),
        true⟩).map (fun d => (d.Total, d.Block, d.Allow, d.Logs.length)) = some (2, 1, 1, 2) ∧
    (∃ d, handleAdmin ⟨some (utf8 "[t] [ALLOW] 内容: a\nnoise\n\n[t] [BLOCK] 内容: b (検知: x)\n"),
        true⟩ = some d ∧ d.Total = d.Block + d.Allow ∧ d.Total = d.Logs.length) :=
  ⟨by decide, by decide,
   match (C5_total_is_block_plus_allow_is_record_count
      ⟨some (utf8 "[t] [ALLOW] 内容: a\nnoise\n\n[t] [BLOCK] 内容: b (検知: x)\n"), true⟩).1 with
   | ⟨d, h1, h2, h3, _⟩ => ⟨d, h1, h2, h3⟩⟩
/-- C16: for every log content the counts of the ranking sum to `Block`, which is the number
of lines that pass the skip rule and hold `[BLOCK]`; the ranking holds each key once, and the
count of a key is the number of those lines whose key it is, so each surviving BLOCK line adds
one to exactly one bucket (the key of the line, `その他` included) and ALLOW lines add nothing. -/
theorem C16_ranking_counts_sum_to_block (fs : FS) :
    (∃ d, handleAdmin fs = some d ∧ total d.Ranking = d.Block ∧
      (d.Ranking.map (fun p => p.1)).Nodup ∧
      d.Block = ((survivors (fs.file.getD [])).filter isBlockLine).length ∧
      ∀ k, count d.Ranking k = ((survivors (fs.file.getD [])).filter
        (fun l => isBlockLine l && decide (blockKey l = some k))).length) ∧
    (∀ line : List Nat, ∃ key, blockKey line = some key) ∧
    (∀ (m : Ranking) (key other : List Nat),
      count (increment m key) other = count m other + (if other = key then 1 else 0)) ∧
    (∀ (st : LoopState) (line : List Nat), ∃ st1, processLine st line = some st1 ∧
      ((Contains line (utf8 "[BLOCK]") = true ∧ st1.blockCount = st.blockCount + 1 ∧
          ∃ key, blockKey line = some key ∧ st1.keywordMap = increment st.keywordMap key) ∨
       (Contains line (utf8 "[BLOCK]") = false ∧ st1.blockCount = st.blockCount ∧
          st1.keywordMap = st.keywordMap))) := by
  refine ⟨?_, blockKey_total, count_increment, ?_⟩
  · obtain ⟨st, hst, hd⟩ := handleAdmin_eq fs
    have := adminLoop_ranking _ _ _ hst ⟨rfl, List.nodup_nil⟩
    obtain ⟨-, i2, -, i4⟩ := adminLoop_survivors _ _ _ hst
    simp only [Nat.zero_add] at i2
    refine ⟨_, hd, this.1, this.2, i2, ?_⟩
    intro k
    have := i4 k
    simpa [count, survivors] using this
  · intro st line
    obtain ⟨key, t, m, hk, -, -, hp⟩ := processLine_total st line
    refine ⟨_, hp, ?_⟩
    by_cases hb : Contains line (utf8 "[BLOCK]") = true
    · left
      rw [if_pos hb]
      exact ⟨hb, rfl, key, hk, rfl⟩
    · right
      rw [if_neg hb]
      exact ⟨by simpa using hb, rfl, rfl⟩

/-- C16 at a log with two BLOCK lines of the same key, one BLOCK line without parentheses and
one ALLOW line. -/
theorem C16_witness :
    (handleAdmin ⟨some (utf8 ("[t] [BLOCK] 内容: a (検知: x)\n[t] [ALLOW] 内容: b\n" ++
        "[t] [BLOCK] 内容: c\n[t] [BLOCK] 内容: d (検知: x)\n")), true⟩).map
      (fun d => (d.Ranking, d.Block, total d.Ranking)) =
      some ([(utf8 "x", 2), (utf8 "その他", 1)], 3, 3) ∧
    (∃ d, handleAdmin ⟨some (utf8 ("[t] [BLOCK] 内容: a (検知: x)\n[t] [ALLOW] 内容: b\n" ++
        "[t] [BLOCK] 内容: c\n[t] [BLOCK] 内容: d (検知: x)\n")), true⟩ = some d ∧
      total d.Ranking = d.Block) :=
  ⟨by decide,
   match (C16_ranking_counts_sum_to_block
      ⟨some (utf8 ("[t] [BLOCK] 内容: a (検知: x)\n[t] [ALLOW] 内容: b\n" ++
        "[t] [BLOCK] 内容: c\n[t] [BLOCK] 内容: d (検知: x)\n")), true⟩).1 with
   | ⟨d, h1, h2, _⟩ => ⟨d, h1, h2⟩⟩
theorem writeAuditLog_closed (fs : FS) (now status message : List Nat)
    (h : fs.canOpen = false) : writeAuditLog fs now status message = fs := by
  simp [writeAuditLog, h]

/-- C9 (as amended): a message that no detector matches is allowed: `handleChat` answers 200
with the `askGeminiMock` text, which contains the message verbatim, and calls `writeAuditLog`
with ALLOW and the message alone; when the log can be opened this appends the ALLOW line whose
content is the message with no reason, and when it cannot the file system is left as it was.
A message is allowed only if no detector matches. -/
theorem C9_allowed_iff_no_detector_matches (fs : FS) (now msg : List Nat) :
    (Clear msg ↔ (handleChat fs now (chatRequest msg)).2.status = 200) ∧
    (Clear msg →
      handleChat fs now (chatRequest msg) =
        (writeAuditLog fs now (utf8 "ALLOW") msg, { status := 200, body := askGeminiMock msg }) ∧
      (fs.canOpen = true → (handleChat fs now (chatRequest msg)).1.file =
        some (fs.file.getD [] ++
          (utf8 "[" ++ now ++ utf8 "] [ALLOW] 内容: " ++ msg ++ utf8 "\n"))) ∧
      (fs.canOpen = false → (handleChat fs now (chatRequest msg)).1 = fs) ∧
      (handleChat fs now (chatRequest msg)).2.body = askGeminiMock msg ∧
      msg <:+: (handleChat fs now (chatRequest msg)).2.body) := by
  have key : Clear msg → handleChat fs now (chatRequest msg) =
      (writeAuditLog fs now (utf8 "ALLOW") msg, { status := 200, body := askGeminiMock msg }) := by
    intro h
    obtain ⟨h0, h1, h2, h3, h4⟩ := (clear_iff msg).1 h
    rw [handleChat_clean fs now msg h0]
    simp [h1, h2, h3, h4]
  refine ⟨⟨fun h => by rw [key h], ?_⟩, ?_⟩
  · intro hs
    rw [clear_iff]
    cases h0 : forbiddenLoop msg forbiddenWords with
    | some w =>
      rw [handleChat_forbidden fs now msg w h0] at hs
      simp [blockWithLog] at hs
    | none =>
      rw [handleChat_clean fs now msg h0] at hs
      by_cases h1 : MatchString emailPattern msg = true
      · simp [h1, blockWithLog] at hs
      · by_cases h2 : (MatchString googleKeyPattern msg || MatchString awsKeyPattern msg) = true
        · simp only [h1, h2] at hs; simp [blockWithLog] at hs
        · by_cases h3 : MatchString codePattern msg = true
          · simp only [h1, h2, h3] at hs; simp [blockWithLog] at hs
          · simp only [Bool.or_eq_true, not_or, Bool.not_eq_true] at h2
            simp only [Bool.not_eq_true] at h1 h3
            exact ⟨rfl, h1, h2.1, h2.2, h3⟩
  · intro h
    refine ⟨key h, ?_, ?_, by rw [key h], by rw [key h]; exact infix_askGeminiMock msg⟩
    · intro hc
      rw [key h]
      simp only
      rw [writeAuditLog_file fs now _ _ hc, auditLine]
      have e : utf8 "] [" ++ utf8 "ALLOW" ++ utf8 "] 内容: " = utf8 "] [ALLOW] 内容: " := by decide
      rw [← e]
      simp only [List.append_assoc]
    · intro hc
      rw [key h]
      exact writeAuditLog_closed fs now _ _ hc

/-- C9 at the message `"What is the weather today?"`, which no detector matches, on a log that
can be opened. -/
theorem C9_witness :
    Clear (utf8 "What is the weather today?") ∧
    (handleChat ⟨some [], true⟩ (utf8 "2026-11-04 09:07:00")
        (chatRequest (utf8 "What is the weather today?"))).2.status = 200 ∧
    (handleChat ⟨some [], true⟩ (utf8 "2026-11-04 09:07:00")
        (chatRequest (utf8 "What is the weather today?"))).1.file =
      some (utf8 "[2026-11-04 09:07:00] [ALLOW] 内容: What is the weather today?\n") ∧
    utf8 "What is the weather today?" <:+:
      (handleChat ⟨some [], true⟩ (utf8 "2026-11-04 09:07:00")
        (chatRequest (utf8 "What is the weather today?"))).2.body :=
  have hclear : Clear (utf8 "What is the weather today?") :=
    (clear_iff _).2 ⟨by decide, by decide, by decide, by decide, by decide⟩
  ⟨hclear,
   ((C9_allowed_iff_no_detector_matches ⟨some [], true⟩ (utf8 "2026-11-04 09:07:00")
      (utf8 "What is the weather today?")).1).1 hclear,
   by decide,
   (((C9_allowed_iff_no_detector_matches ⟨some [], true⟩ (utf8 "2026-11-04 09:07:00")
      (utf8 "What is the weather today?")).2) hclear).2.2.2.2⟩

/-- C9 fails as stated when the log cannot be opened: the message
`"What is the weather today?"`, which no detector matches, is answered with status 200 and the
reply, but no ALLOW line is written: the log is as it was, and `handleAdmin` finds no record. -/
theorem C9_counterexample :
    Clear (utf8 "What is the weather today?") ∧
    (handleChat ⟨some [], false⟩ (utf8 "2026-11-04 09:07:00")
        (chatRequest (utf8 "What is the weather today?"))).2 =
      { status := 200, body := askGeminiMock (utf8 "What is the weather today?") } ∧
    (handleChat ⟨some [], false⟩ (utf8 "2026-11-04 09:07:00")
        (chatRequest (utf8 "What is the weather today?"))).1.file = some [] ∧
    (handleAdmin (handleChat ⟨some [], false⟩ (utf8 "2026-11-04 09:07:00")
        (chatRequest (utf8 "What is the weather today?"))).1).map (fun d => d.Logs.length) =
      some 0 :=
  ⟨(clear_iff _).2 ⟨by decide, by decide, by decide, by decide, by decide⟩,
   by decide, by decide, by decide⟩
theorem recordText_contains_of_message (now status m pat : List Nat) (h : pat <:+: m) :
    Contains (recordText now status m) pat = true := by
  rw [Contains_iff]
  exact h.trans (List.suffix_append _ m).isInfix

/-- C4 (as amended): after a successful write onto a log that is empty or ends in a line feed,
with no line feed in the formatted time, the content or (for a BLOCK) the reason, `handleAdmin`
parses the old records followed by exactly one new record.  For an ALLOW write that record has
Status `ALLOW` and the ranking is unchanged when the content does not hold `[BLOCK]`, and has
Status `BLOCK` when it does.  For a BLOCK write through `blockWithLog` that record has Status
`BLOCK`, and when the reason holds no `(` the key counted in the ranking is the reason with the
first instance of the labels `検知: ` and `禁止用語: ` removed. -/
theorem C4_round_trip_status_and_stripped_reason (fs : FS) (now content reason : List Nat)
    (hopen : fs.canOpen = true) (hterm : Terminated (fs.file.getD []))
    (hnow : isTimestamp now) (hc : ¬ utf8 "\n" <:+: content) :
    (∃ d d1 e, handleAdmin fs = some d ∧
      handleAdmin (writeAuditLog fs now (utf8 "ALLOW") content) = some d1 ∧
      d1.Logs = d.Logs ++ [e] ∧
      (¬ utf8 "[BLOCK]" <:+: content → e.Status = utf8 "ALLOW" ∧ d1.Ranking = d.Ranking) ∧
      (utf8 "[BLOCK]" <:+: content → e.Status = utf8 "BLOCK")) ∧
    (¬ utf8 "\n" <:+: reason →
      ∃ d d1 e, handleAdmin fs = some d ∧
        handleAdmin (blockWithLog fs now content reason).1 = some d1 ∧
        d1.Logs = d.Logs ++ [e] ∧ e.Status = utf8 "BLOCK" ∧
        (¬ utf8 "(" <:+: reason →
          d1.Ranking = increment d.Ranking
            (Replace (utf8 "禁止用語: ") (Replace (utf8 "検知: ") reason)))) := by
  have h1 := isTimestamp_no_lf now hnow
  have h3 : 10 ∉ content := (not_lf_infix_iff content).1 hc
  constructor
  · obtain ⟨st, st1, hd, hp, hd1⟩ := handleAdmin_after_write fs now (utf8 "ALLOW") content hopen
      hterm h1 (by decide) h3
    obtain ⟨key, t, m, -, -, -, hp2⟩ := processLine_total st (recordText now (utf8 "ALLOW") content)
    rw [hp, Option.some.injEq] at hp2
    by_cases hb : utf8 "[BLOCK]" <:+: content
    · rw [recordText_contains_of_message now _ content _ hb, if_pos rfl] at hp2
      subst hp2
      exact ⟨_, _, _, hd, hd1, rfl, fun hn => absurd hb hn, fun _ => rfl⟩
    · rw [recordText_allow_contains now content hnow hb, if_neg (by simp)] at hp2
      subst hp2
      exact ⟨_, _, _, hd, hd1, rfl, fun _ => ⟨rfl, rfl⟩, fun hy => absurd hy hb⟩
  · intro hr1
    have hr : 10 ∉ reason := (not_lf_infix_iff reason).1 hr1
    have hm : 10 ∉ content ++ utf8 " (" ++ reason ++ utf8 ")" := by
      have e1 : 10 ∉ utf8 " (" := by decide
      have e2 : 10 ∉ utf8 ")" := by decide
      simp only [List.mem_append, not_or]
      exact ⟨⟨⟨h3, e1⟩, hr⟩, e2⟩
    have hw : (blockWithLog fs now content reason).1 =
        writeAuditLog fs now (utf8 "BLOCK") (content ++ utf8 " (" ++ reason ++ utf8 ")") := rfl
    obtain ⟨st, st1, hd, hp, hd1⟩ := handleAdmin_after_write fs now (utf8 "BLOCK")
      (content ++ utf8 " (" ++ reason ++ utf8 ")") hopen hterm h1 (by decide) hm
    obtain ⟨key, t, m, hk, -, -, hp2⟩ := processLine_total st
      (recordText now (utf8 "BLOCK") (content ++ utf8 " (" ++ reason ++ utf8 ")"))
    rw [hp, recordText_block_contains, if_pos rfl, Option.some.injEq] at hp2
    subst hp2
    refine ⟨_, _, _, hd, by rw [hw]; exact hd1, rfl, rfl, ?_⟩
    intro hr2
    rw [blockKey_recordText now content reason hr2, Option.some.injEq] at hk
    subst hk
    rfl

/-- C4 at a log with one earlier record: an ALLOW write of `hello` and a BLOCK write of
`my password is 1234` with the reason `禁止用語: password`. -/
theorem C4_witness :
    Terminated ((⟨some (utf8 "[2026-11-04 09:06:59] [ALLOW] 内容: hi\n"), true⟩ : FS).file.getD []) ∧
    isTimestamp (utf8 "2026-11-04 09:07:00") ∧
    (¬ utf8 "\n" <:+: utf8 "hello" ∧ ¬ utf8 "[BLOCK]" <:+: utf8 "hello" ∧
      ∃ d d1 e, handleAdmin ⟨some (utf8 "[2026-11-04 09:06:59] [ALLOW] 内容: hi\n"), true⟩ = some d ∧
        handleAdmin (writeAuditLog ⟨some (utf8 "[2026-11-04 09:06:59] [ALLOW] 内容: hi\n"), true⟩
          (utf8 "2026-11-04 09:07:00") (utf8 "ALLOW") (utf8 "hello")) = some d1 ∧
        d1.Logs = d.Logs ++ [e] ∧
        (¬ utf8 "[BLOCK]" <:+: utf8 "hello" → e.Status = utf8 "ALLOW" ∧ d1.Ranking = d.Ranking) ∧
        (utf8 "[BLOCK]" <:+: utf8 "hello" → e.Status = utf8 "BLOCK")) ∧
    (¬ utf8 "\n" <:+: utf8 "my password is 1234" ∧ ¬ utf8 "\n" <:+: utf8 "禁止用語: password" ∧
      ¬ utf8 "(" <:+: utf8 "禁止用語: password" ∧
      ∃ d d1 e, handleAdmin ⟨some (utf8 "[2026-11-04 09:06:59] [ALLOW] 内容: hi\n"), true⟩ = some d ∧
        handleAdmin (blockWithLog ⟨some (utf8 "[2026-11-04 09:06:59] [ALLOW] 内容: hi\n"), true⟩
          (utf8 "2026-11-04 09:07:00") (utf8 "my password is 1234")
          (utf8 "禁止用語: password")).1 = some d1 ∧
        d1.Logs = d.Logs ++ [e] ∧ e.Status = utf8 "BLOCK" ∧
        (¬ utf8 "(" <:+: utf8 "禁止用語: password" →
          d1.Ranking = increment d.Ranking
            (Replace (utf8 "禁止用語: ") (Replace (utf8 "検知: ") (utf8 "禁止用語: password"))))) ∧
    Replace (utf8 "禁止用語: ") (Replace (utf8 "検知: ") (utf8 "禁止用語: password")) =
      utf8 "password" :=
  have hterm : Terminated
      ((⟨some (utf8 "[2026-11-04 09:06:59] [ALLOW] 内容: hi\n"), true⟩ : FS).file.getD []) :=
    Or.inr (by decide)
  have hnow : isTimestamp (utf8 "2026-11-04 09:07:00") := ⟨by decide, by decide⟩
  ⟨hterm, hnow,
   ⟨by decide, by decide,
    (C4_round_trip_status_and_stripped_reason
      ⟨some (utf8 "[2026-11-04 09:06:59] [ALLOW] 内容: hi\n"), true⟩
      (utf8 "2026-11-04 09:07:00") (utf8 "hello") [] rfl hterm hnow (by decide)).1⟩,
   ⟨by decide, by decide, by decide,
    (C4_round_trip_status_and_stripped_reason
      ⟨some (utf8 "[2026-11-04 09:06:59] [ALLOW] 内容: hi\n"), true⟩
      (utf8 "2026-11-04 09:07:00") (utf8 "my password is 1234") (utf8 "禁止用語: password")
      rfl hterm hnow (by decide)).2 (by decide)⟩,
   by decide⟩

end Gateway
